import Mathlib

/-!
Verification of the Recast voxel pipeline (recastnavigation fork).

This file is a shallow embedding, in Lean 4, of the parts of the Recast
source code that the specification talks about:

* the sparse heightfield and its merging span insertion
  (`RecastRasterization.cpp`: `addSpan`),
* the triangle rasterizer over exact rational arithmetic
  (`RecastRasterization.cpp`: `dividePoly`, `rasterizeTri`),
* the span filters (`RecastFilter.cpp`: `rcFilterLedgeSpans`),
* the compact heightfield builder (`Recast.cpp`: `rcBuildCompactHeightfield`),
* erosion (`RecastArea.cpp`: `rcErodeWalkableArea`),
* the region partitioners and their postprocess
  (`RecastRegion.cpp`: `rcBuildRegionsMonotone`, `rcBuildRegions`,
  `mergeAndFilterRegions`, `walkContour`, `floodRegion`, `expandRegions`).

Machine integers are modelled as `Nat`/`Int` with explicit truncation where
the C++ stores into bit fields (13-bit `smin`/`smax`, 6-bit `area`,
8-bit distances, `unsigned char` casts).  Floating point geometry is
modelled over `ℚ`; the branch structure of the clipper is exact, so the
rational model reproduces the C++ control flow whenever the float
computations are exact.  C loops become structural recursion, with an
explicit fuel argument exactly where the C++ itself bounds the iteration
(e.g. `walkContour`'s 40000-iteration cap) or where the bound is a proved
consequence of the loop's progress.
-/

namespace Recast

/-! ### Sparse heightfield spans (`Recast.h`: `rcSpan`)

`rcSpan` stores `smin`, `smax` in 13-bit bit fields and `area` in a 6-bit
bit field; assignment truncates modulo `2^13` resp. `2^6`. -/

/-- One solid span of a sparse-heightfield column:
`smin`/`smax` are 13-bit voxel heights, `area` a 6-bit tag. -/
structure Span where
  smin : Nat
  smax : Nat
  area : Nat
deriving Repr, DecidableEq

/-- `RC_SPAN_MAX_HEIGHT = (1 << 13) - 1`. -/
def RC_SPAN_MAX_HEIGHT : Nat := 8191

/-- `RC_NOT_CONNECTED = 0x3f`. -/
def RC_NOT_CONNECTED : Nat := 63

/-- `RC_BORDER_REG = 0x8000`. -/
def RC_BORDER_REG : Nat := 0x8000

/-- `rcClamp` on integers: `v < lo ? lo : (v > hi ? hi : v)`. -/
def rcClampI (v lo hi : Int) : Int :=
  if v < lo then lo else if v > hi then hi else v

/-- The span-chain walk of `addSpan`
(`RecastRasterization.cpp:180-252` plus the final splice at 258-276).

The column chain is the list ordered from the lowest span upwards (the
`next` pointers).  `s` is the new span being inserted (already truncated to
its bit-field widths); the three cases of the C++ loop become the three
branches, and the splice before the first span lying entirely above the new
interval is the `s :: c :: rest` result. -/
def addSpanLoop (fmt : Int) (s : Span) : List Span → List Span
  | [] => [s]
  | c :: rest =>
    if c.smin > s.smax then
      -- current span entirely above the new span: insert before it
      s :: c :: rest
    else if c.smax < s.smin then
      -- current span entirely below: keep it and advance
      c :: addSpanLoop fmt s rest
    else
      -- overlap: absorb the current span into the new one and continue
      let merged : Span :=
        { smin := if c.smin < s.smin then c.smin else s.smin
          smax := if c.smax > s.smax then c.smax else s.smax
          area := s.area }
      let merged :=
        if |(merged.smax : Int) - (c.smax : Int)| ≤ fmt then
          { merged with area := max merged.area c.area }
        else merged
      addSpanLoop fmt merged rest

/-- `addSpan` on one column (`RecastRasterization.cpp:133-279`): the new
span's fields are truncated by the 13-bit/6-bit bit-field assignments, then
the chain is walked and the result spliced in. -/
def addSpan (fmt : Int) (mn mx area : Nat) (col : List Span) : List Span :=
  addSpanLoop fmt { smin := mn % 8192, smax := mx % 8192, area := area % 64 } col

/-- A sparse heightfield: `width × height` columns, each a span chain
ordered by ascending `smin` (`rcHeightfield`). -/
structure Hf where
  width : Nat
  height : Nat
  cols : List (List Span)
deriving Repr, DecidableEq

/-- `rcCreateHeightfield`: all columns start empty. -/
def rcCreateHeightfield (w h : Nat) : Hf :=
  { width := w, height := h, cols := List.replicate (w * h) [] }

/-- `rcAddSpan` targeting column `(x, z)` of the heightfield
(column index `x + z * width`). -/
def rcAddSpan (hf : Hf) (x z : Nat) (mn mx area : Nat) (fmt : Int) : Hf :=
  let ci := x + z * hf.width
  { hf with cols := hf.cols.set ci (addSpan fmt mn mx area (hf.cols.getD ci [])) }

/-! ### Compact heightfield (`Recast.cpp`: `rcBuildCompactHeightfield`) -/

/-- A compact span (`rcCompactSpan`): `y` is the floor (top of the solid
span), `h` the clamped open-space height, and the four `con` fields hold
the stored neighbor layer index per direction (`none` = `RC_NOT_CONNECTED`).
The parallel `areas` array of the C++ is inlined as the `area` field. -/
structure CSpan where
  y : Nat
  h : Nat
  area : Nat
  con0 : Option Nat := none
  con1 : Option Nat := none
  con2 : Option Nat := none
  con3 : Option Nat := none
deriving Repr, DecidableEq

/-- `rcGetCon` by direction index. -/
def getCon (s : CSpan) (d : Nat) : Option Nat :=
  match d with
  | 0 => s.con0
  | 1 => s.con1
  | 2 => s.con2
  | 3 => s.con3
  | _ => none

/-- `rcSetCon`. -/
def setCon (s : CSpan) (d : Nat) (v : Option Nat) : CSpan :=
  match d with
  | 0 => { s with con0 := v }
  | 1 => { s with con1 := v }
  | 2 => { s with con2 := v }
  | 3 => { s with con3 := v }
  | _ => s

/-- `rcGetDirOffsetX`: `{-1, 0, 1, 0}`. -/
def dirOffX (d : Nat) : Int :=
  match d % 4 with
  | 0 => -1
  | 2 => 1
  | _ => 0

/-- `rcGetDirOffsetY` (the grid Z axis): `{0, 1, 0, -1}`. -/
def dirOffZ (d : Nat) : Int :=
  match d % 4 with
  | 1 => 1
  | 3 => -1
  | _ => 0

/-- The opposite direction `d ^ 2`. -/
def oppDir (d : Nat) : Nat := d ^^^ 2

/-- The compact heightfield: per-column lists of compact spans.  The C++
flat `spans` array is the concatenation of the columns in index order, and
`cells[c] = {index, count}` is recovered by `cellIndex`/column length. -/
structure Chf where
  width : Nat
  height : Nat
  cols : List (List CSpan)
deriving Repr, DecidableEq

/-- Column of a compact heightfield at flat cell index `c`. -/
def Chf.colAt (chf : Chf) (c : Nat) : List CSpan :=
  chf.cols.getD c []

/-- `cells[c].index`: the flat-array start of column `c`
(sum of the lengths of the preceding columns). -/
def Chf.cellIndex (chf : Chf) (c : Nat) : Nat :=
  ((chf.cols.take c).map List.length).sum

/-- The flat `spans`/`areas` array (concatenation of all columns). -/
def Chf.flat (chf : Chf) : List CSpan :=
  chf.cols.flatten

/-- Flat span lookup (the C++ `chf.spans[i]` / `chf.areas[i]`). -/
def Chf.spanAt (chf : Chf) (i : Nat) : CSpan :=
  chf.flat.getD i ⟨0, 0, 0, none, none, none, none⟩

/-- Number of compact spans. -/
def Chf.spanCount (chf : Chf) : Nat := chf.flat.length

/-- The layer-`l` compact span of cell `(x, z)`. -/
def Chf.spanIn (chf : Chf) (x z l : Nat) : CSpan :=
  (chf.colAt (x + z * chf.width)).getD l ⟨0, 0, 0, none, none, none, none⟩

/-- Phase one of `rcBuildCompactHeightfield`
(`Recast.cpp:874-910`): each walkable span of a column becomes one compact
span with `y = clamp(smax, 0, 0xffff)`,
`h = clamp(top - bot, 0, 0xff)` where `top` is the next solid span's
`smin` (`0xffff` when there is none), and the `area` tag copied. -/
def compactColumn : List Span → List CSpan
  | [] => []
  | s :: rest =>
    let top : Int := match rest with
      | [] => 0xffff
      | t :: _ => (t.smin : Int)
    if s.area ≠ 0 then
      { y := (rcClampI (s.smax : Int) 0 0xffff).toNat
        h := (rcClampI (top - (s.smax : Int)) 0 0xff).toNat
        area := s.area } :: compactColumn rest
    else
      compactColumn rest

/-- The walkable-height/climb connection predicate of the link phase
(`Recast.cpp:1019-1031`):
`min(a.y+a.h, b.y+b.h) - max(a.y, b.y) >= walkableHeight` and
`|a.y - b.y| <= walkableClimb`. -/
def conn (wh wc : Int) (a b : CSpan) : Bool :=
  (min ((a.y : Int) + a.h) ((b.y : Int) + b.h) - max (a.y : Int) (b.y : Int) ≥ wh)
    && (|(b.y : Int) - (a.y : Int)| ≤ wc)

/-- Index of the first list element satisfying `p` (the neighbor-column
scan `for k ... if (...) break` of the link phase). -/
def firstSat (p : α → Bool) : List α → Option Nat
  | [] => none
  | a :: l => if p a then some 0 else (firstSat p l).map (· + 1)

/-- The connection stored for span `a` of cell `(x, z)` in direction `d`
(`Recast.cpp:972-1058`): out-of-bounds neighbors stay unconnected; inside,
the first span of the neighbor column satisfying the predicate is taken,
and it is recorded only when its layer index is at most `MAX_LAYERS = 62`
(layer indices above 62 only feed the error log and are skipped, and every
later candidate has a still larger layer index). -/
def conOf (w h : Nat) (cols : List (List CSpan)) (wh wc : Int)
    (x z : Nat) (a : CSpan) (d : Nat) : Option Nat :=
  let nx : Int := (x : Int) + dirOffX d
  let nz : Int := (z : Int) + dirOffZ d
  if 0 ≤ nx ∧ nx < (w : Int) ∧ 0 ≤ nz ∧ nz < (h : Int) then
    let ncol := cols.getD (nx.toNat + nz.toNat * w) []
    match firstSat (fun b => conn wh wc a b) ncol with
    | some k => if k ≤ 62 then some k else none
    | none => none
  else none

/-- Fill the four `con` fields of one span. -/
def linkSpan (w h : Nat) (cols : List (List CSpan)) (wh wc : Int)
    (x z : Nat) (a : CSpan) : CSpan :=
  { a with
    con0 := conOf w h cols wh wc x z a 0
    con1 := conOf w h cols wh wc x z a 1
    con2 := conOf w h cols wh wc x z a 2
    con3 := conOf w h cols wh wc x z a 3 }

/-- `rcBuildCompactHeightfield` (`Recast.cpp:735-1073`) without the
allocation-failure paths: phase one compacts each column, phase two fills
the neighbor connections. -/
def rcBuildCompactHeightfield (wh wc : Int) (hf : Hf) : Chf :=
  let cols0 := hf.cols.map compactColumn
  { width := hf.width
    height := hf.height
    cols := (List.range (hf.width * hf.height)).map (fun c =>
      let x := c % hf.width
      let z := c / hf.width
      (cols0.getD c []).map (linkSpan hf.width hf.height cols0 wh wc x z)) }

/-- Whether the link phase finds any neighbor layer index above 62
(`maxLayerIndex > MAX_LAYERS`, `Recast.cpp:1040-1070`): the C++ only logs
an error in this case and still returns `true`. -/
def tooManyLayers (wh wc : Int) (hf : Hf) : Bool :=
  let cols0 := hf.cols.map compactColumn
  (List.range (hf.width * hf.height)).any (fun c =>
    let x := c % hf.width
    let z := c / hf.width
    (cols0.getD c []).any (fun a =>
      (List.range 4).any (fun d =>
        let nx : Int := (x : Int) + dirOffX d
        let nz : Int := (z : Int) + dirOffZ d
        if 0 ≤ nx ∧ nx < (hf.width : Int) ∧ 0 ≤ nz ∧ nz < (hf.height : Int) then
          match firstSat (fun b => conn wh wc a b)
              (cols0.getD (nx.toNat + nz.toNat * hf.width) []) with
          | some k => decide (k > 62)
          | none => false
        else false)))

/-- The result record of `rcBuildCompactHeightfield`: in the embedding the
allocation failures cannot occur, so the boolean result only reflects the
remaining control flow of the C++ (which always reaches `return true`). -/
structure BuildCompactResult where
  chf : Chf
  tooManyLayersLogged : Bool
  ok : Bool
deriving Repr, DecidableEq

/-- `rcBuildCompactHeightfield` as the full call: the layer-overflow check
logs but does not change the return value (`Recast.cpp:1066-1072`). -/
def rcBuildCompactHeightfieldR (wh wc : Int) (hf : Hf) : BuildCompactResult :=
  { chf := rcBuildCompactHeightfield wh wc hf
    tooManyLayersLogged := tooManyLayers wh wc hf
    ok := true }

/-! ### Erosion (`RecastArea.cpp`: `rcErodeWalkableArea`) -/

/-- Global (flat-array) index of layer `l` of flat cell `c`. -/
def Chf.gIdx (chf : Chf) (c l : Nat) : Nat := chf.cellIndex c + l

/-- Flat index of the span connected to `(x, z)` in direction `d` at
neighbor layer `k` (the C++ `cells[ax+ay*w].index + rcGetCon(s, dir)`). -/
def Chf.nIdx (chf : Chf) (x z d k : Nat) : Nat :=
  let nx : Int := (x : Int) + dirOffX d
  let nz : Int := (z : Int) + dirOffZ d
  chf.cellIndex (nx.toNat + nz.toNat * chf.width) + k

/-- Area of the flat span `i`. -/
def Chf.areaAt (chf : Chf) (i : Nat) : Nat := (chf.spanAt i).area

/-- Boundary seeding of the erosion distance field
(`RecastArea.cpp:143-190`): null-area spans and walkable spans missing a
connected walkable neighbor in one of the four directions get distance 0,
all others 255. -/
def erodeSeed (chf : Chf) (x z : Nat) (s : CSpan) (a : Nat) : Nat :=
  if a = 0 then 0
  else
    let open4 := (List.range 4).all (fun d =>
      match getCon s d with
      | none => false
      | some k => chf.areaAt (chf.nIdx x z d k) ≠ 0)
    if open4 then 255 else 0

/-- Initial distance list, one entry per flat span, in flat order. -/
def erodeSeeds (chf : Chf) : List Nat :=
  ((List.range (chf.width * chf.height)).map (fun c =>
    (chf.colAt c).map (fun s =>
      erodeSeed chf (c % chf.width) (c / chf.width) s s.area))).flatten

/-- One relaxation `if (newD < dist[i]) dist[i] = newD` with
`newD = min(dist[src] + cost, 255)` (`RecastArea.cpp:237-241` etc.). -/
def relax (dist : List Nat) (i src cost : Nat) : List Nat :=
  let nd := min (dist.getD src 255 + cost) 255
  if nd < dist.getD i 255 then dist.set i nd else dist

/-- The per-span body of erosion sweep 1 (`RecastArea.cpp:224-288`):
relax from direction `0` (west, +2) and its `3`-diagonal (+3), then from
direction `3` (south, +2) and its `2`-diagonal (+3). -/
def erodePass1Span (chf : Chf) (x z i : Nat) (s : CSpan) (dist : List Nat) : List Nat :=
  let dist :=
    match getCon s 0 with
    | none => dist
    | some k =>
      let aIdx := chf.nIdx x z 0 k
      let dist := relax dist i aIdx 2
      match getCon (chf.spanAt aIdx) 3 with
      | none => dist
      | some k2 => relax dist i (chf.nIdx (x - 1) z 3 k2) 3
  match getCon s 3 with
  | none => dist
  | some k =>
    let aIdx := chf.nIdx x z 3 k
    let dist := relax dist i aIdx 2
    match getCon (chf.spanAt aIdx) 2 with
    | none => dist
    | some k2 => relax dist i (chf.nIdx x (z - 1) 2 k2) 3

/-- The per-span body of erosion sweep 2 (`RecastArea.cpp:295-365`):
relax from direction `2` (east, +2) and its `1`-diagonal, then from
direction `1` (north, +2) and its `0`-diagonal. -/
def erodePass2Span (chf : Chf) (x z i : Nat) (s : CSpan) (dist : List Nat) : List Nat :=
  let dist :=
    match getCon s 2 with
    | none => dist
    | some k =>
      let aIdx := chf.nIdx x z 2 k
      let dist := relax dist i aIdx 2
      match getCon (chf.spanAt aIdx) 1 with
      | none => dist
      | some k2 => relax dist i (chf.nIdx (x + 1) z 1 k2) 3
  match getCon s 1 with
  | none => dist
  | some k =>
    let aIdx := chf.nIdx x z 1 k
    let dist := relax dist i aIdx 2
    match getCon (chf.spanAt aIdx) 0 with
    | none => dist
    | some k2 => relax dist i (chf.nIdx x (z + 1) 0 k2) 3

/-- Run one sweep body over every span of cell `c`, in layer order. -/
def erodeCell (body : Chf → Nat → Nat → Nat → CSpan → List Nat → List Nat)
    (chf : Chf) (c : Nat) (dist : List Nat) : List Nat :=
  let x := c % chf.width
  let z := c / chf.width
  ((chf.colAt c).enum.foldl (fun d sl =>
    body chf x z (chf.gIdx c sl.1) sl.2 d) dist)

/-- The two-sweep Chamfer distance field of `rcErodeWalkableArea`
(seeding plus forward sweep over cells in increasing order and backward
sweep in decreasing order, `RecastArea.cpp:115-365`). -/
def erodeDist (chf : Chf) : List Nat :=
  let dist := erodeSeeds chf
  let dist := (List.range (chf.width * chf.height)).foldl
    (fun d c => erodeCell erodePass1Span chf c d) dist
  ((List.range (chf.width * chf.height)).reverse).foldl
    (fun d c => erodeCell erodePass2Span chf c d) dist

/-- The final thresholding of `rcErodeWalkableArea`
(`RecastArea.cpp:374-381`): `minBoundaryDistance` is the `unsigned char`
cast of `erosionRadius * 2`, i.e. `(2 r) % 256`. -/
def erodeApply (chf : Chf) (dist : List Nat) (thr : Nat) : Chf :=
  { chf with
    cols := (List.range chf.cols.length).map (fun c =>
      (chf.colAt c).enum.map (fun sl =>
        if dist.getD (chf.gIdx c sl.1) 255 < thr then { sl.2 with area := 0 }
        else sl.2)) }

/-- `rcErodeWalkableArea` (without the allocation-failure path, which the
embedding cannot take): compute the distance field, then null every span
whose distance is below the truncated threshold. -/
def rcErodeWalkableArea (r : Nat) (chf : Chf) : Chf :=
  erodeApply chf (erodeDist chf) ((2 * r) % 256)

/-! ### Ledge filter (`RecastFilter.cpp`: `rcFilterLedgeSpans`)

The filter writes only `area` fields and never reads the `area` of any
span other than the one currently being visited (neighbor tests read
`smin`/`smax` only), and every span is visited exactly once; the
sequential in-place update of the C++ is therefore equal to the
independent per-span map below. -/

/-- Pair each span of a column with its ceiling: the next span's `smin`,
or `MAX_HEIGHTFIELD_HEIGHT = 0xffff` for the topmost span. -/
def withTops : List Span → List (Span × Int)
  | [] => []
  | s :: rest =>
    (s, match rest with
        | [] => (0xffff : Int)
        | t :: _ => (t.smin : Int)) :: withTops rest

/-- The neighbor-column walk of `rcFilterLedgeSpans`
(`RecastFilter.cpp:232-260`), carried state
`(lowestNeighborFloorDifference, lowestTraversableNeighborFloor,
highestTraversableNeighborFloor)`; the `break` on
`neighborFloorDifference < -walkableClimb` stops the walk. -/
def ledgeInner (wh wc floor ceiling : Int) :
    List (Span × Int) → Int × Int × Int → Int × Int × Int
  | [], st => st
  | (ns, nc) :: rest, (lowest, lo, hi) =>
    let nf : Int := (ns.smax : Int)
    if min ceiling nc - max floor nf < wh then
      ledgeInner wh wc floor ceiling rest (lowest, lo, hi)
    else
      let diff := nf - floor
      let lowest := min lowest diff
      if |diff| ≤ wc then
        ledgeInner wh wc floor ceiling rest (lowest, min lo nf, max hi nf)
      else if diff < -wc then
        (lowest, lo, hi)
      else
        ledgeInner wh wc floor ceiling rest (lowest, lo, hi)

/-- The direction loop of `rcFilterLedgeSpans`
(`RecastFilter.cpp:206-261`): an out-of-bounds neighbor or an over-tall
gap below the neighbor column sets the `-walkableClimb - 1` sentinel and
breaks; otherwise the neighbor column is walked and the loop continues. -/
def ledgeDirs (hf : Hf) (wh wc floor ceiling : Int) (x z : Nat) :
    List Nat → Int × Int × Int → Int × Int × Int
  | [], st => st
  | d :: rest, (lowest, lo, hi) =>
    let nx : Int := (x : Int) + dirOffX d
    let nz : Int := (z : Int) + dirOffZ d
    if nx < 0 ∨ nz < 0 ∨ nx ≥ (hf.width : Int) ∨ nz ≥ (hf.height : Int) then
      (-wc - 1, lo, hi)
    else
      let ncol := hf.cols.getD (nx.toNat + nz.toNat * hf.width) []
      let nCeil0 : Int := match ncol with
        | [] => 0xffff
        | t :: _ => (t.smin : Int)
      if min ceiling nCeil0 - floor ≥ wh then
        (-wc - 1, lo, hi)
      else
        ledgeDirs hf wh wc floor ceiling x z rest
          (ledgeInner wh wc floor ceiling (withTops ncol) (lowest, lo, hi))

/-- The per-span body of `rcFilterLedgeSpans`
(`RecastFilter.cpp:186-275`): non-walkable spans are skipped; a walkable
span is nulled when the lowest reachable neighbor floor drops more than
`walkableClimb`, or when the traversable neighbor floors spread more than
`walkableClimb`. -/
def ledgeSpan (hf : Hf) (wh wc : Int) (x z : Nat) (s : Span) (ceiling : Int) : Span :=
  if s.area = 0 then s
  else
    let floor : Int := (s.smax : Int)
    let st := ledgeDirs hf wh wc floor ceiling x z [0, 1, 2, 3] (0xffff, floor, floor)
    if st.1 < -wc then { s with area := 0 }
    else if st.2.2 - st.2.1 > wc then { s with area := 0 }
    else s

/-- `rcFilterLedgeSpans` over the whole heightfield. -/
def rcFilterLedgeSpans (wh wc : Int) (hf : Hf) : Hf :=
  { hf with
    cols := (List.range (hf.width * hf.height)).map (fun c =>
      (withTops (hf.cols.getD c [])).map (fun st =>
        ledgeSpan hf wh wc (c % hf.width) (c / hf.width) st.1 st.2)) }

/-! ### Region partitioning (`RecastRegion.cpp`)

Region labels are `Nat`s; bit `0x8000` is the border-region flag.
`srcReg` is the per-flat-span label array. -/

/-- `paintRectRegion` (`RecastRegion.cpp:1625-1641`): label every
walkable span of the rectangle `[minx, maxx) × [miny, maxy)`. -/
def paintRectRegion (chf : Chf) (minx maxx miny maxy regId : Nat)
    (srcReg : List Nat) : List Nat :=
  (List.range (chf.width * chf.height)).foldl (fun sr c =>
    let x := c % chf.width
    let z := c / chf.width
    if minx ≤ x ∧ x < maxx ∧ miny ≤ z ∧ z < maxy then
      (List.range (chf.colAt c).length).foldl (fun sr l =>
        if chf.areaAt (chf.gIdx c l) ≠ 0 then sr.set (chf.gIdx c l) regId else sr) sr
    else sr) srcReg

/-- `rcSweepSpan` (`RecastRegion.cpp:1650-1656`). -/
structure Sweep where
  rid : Nat
  id : Nat
  ns : Nat
  nei : Nat
deriving Repr, DecidableEq

/-- `RC_NULL_NEI = 0xffff`. -/
def RC_NULL_NEI : Nat := 0xffff

/-- State of one row of the monotone sweep: the global label array, the
row-local `sweeps` table (`sweeps.length` plays the role of the `rid`
counter: row-local ids `1 .. sweeps.length - 1` are allocated, entry 0 is
a dummy), and the `prev` histogram. -/
structure RowState where
  srcReg : List Nat
  sweeps : List Sweep
  prev : List Nat
deriving Repr, DecidableEq

/-- Process one span in the monotone row sweep
(`RecastRegion.cpp:1738-1788`): inherit the west row-local id when the
west neighbor has a matching area and a non-border label, otherwise
allocate a fresh row-local id; then sample the south neighbor's global
label into the sweep record and the `prev` histogram. -/
def sweepSpanStep (chf : Chf) (x y i : Nat) (s : CSpan) (st : RowState) : RowState :=
  if chf.areaAt i = 0 then st
  else
    let previd :=
      match getCon s 0 with
      | some k =>
        let ai := chf.nIdx x y 0 k
        if st.srcReg.getD ai 0 &&& RC_BORDER_REG = 0 ∧ chf.areaAt i = chf.areaAt ai then
          st.srcReg.getD ai 0
        else 0
      | none => 0
    let (previd, sweeps) :=
      if previd = 0 then
        (st.sweeps.length, st.sweeps ++ [{ rid := st.sweeps.length, id := 0, ns := 0, nei := 0 }])
      else (previd, st.sweeps)
    let (sweeps, prev) :=
      match getCon s 3 with
      | some k =>
        let ai := chf.nIdx x y 3 k
        let nr := st.srcReg.getD ai 0
        if nr ≠ 0 ∧ nr &&& RC_BORDER_REG = 0 ∧ chf.areaAt i = chf.areaAt ai then
          let sw := sweeps.getD previd ⟨0, 0, 0, 0⟩
          if sw.nei = 0 ∨ sw.nei = nr then
            (sweeps.set previd { sw with nei := nr, ns := sw.ns + 1 },
             st.prev.set nr (st.prev.getD nr 0 + 1))
          else
            (sweeps.set previd { sw with nei := RC_NULL_NEI }, st.prev)
        else (sweeps, st.prev)
      | none => (sweeps, st.prev)
    { srcReg := st.srcReg.set i previd, sweeps := sweeps, prev := prev }

/-- All `(x, globalIndex, span)` triples of row `y` between the border
strips, in scan order. -/
def rowSpans (chf : Chf) (bs y : Nat) : List (Nat × Nat × CSpan) :=
  ((List.range chf.width).filter (fun x => bs ≤ x ∧ x + bs < chf.width)).map (fun x =>
    let c := x + y * chf.width
    (chf.colAt c).enum.map (fun le => (x, chf.gIdx c le.1, le.2))) |>.flatten

/-- One row of the monotone sweep (`RecastRegion.cpp:1726-1818`): scan the
row, resolve each row-local id to a global id (inheriting the south
neighbor's id when every sample of the row agrees, i.e.
`prev[nei] == ns`), and remap the row's labels.  Returns the updated
label array, the global id counter, and the final value of the row-local
counter `rid` (for the sweep-table bound). -/
def monotoneRow (chf : Chf) (bs y : Nat) (srcReg : List Nat) (id : Nat) :
    List Nat × Nat × Nat :=
  let st0 : RowState :=
    { srcReg := srcReg
      sweeps := [⟨0, 0, 0, 0⟩]
      prev := List.replicate (id + 1) 0 }
  let st := (rowSpans chf bs y).foldl
    (fun st xis => sweepSpanStep chf xis.1 y xis.2.1 xis.2.2 st) st0
  let rid := st.sweeps.length
  let (sweeps, id) := (List.range rid).foldl (fun (p : List Sweep × Nat) i =>
    if i = 0 then p
    else
      let sw := p.1.getD i ⟨0, 0, 0, 0⟩
      if sw.nei ≠ RC_NULL_NEI ∧ sw.nei ≠ 0 ∧ st.prev.getD sw.nei 0 = sw.ns then
        (p.1.set i { sw with id := sw.nei }, p.2)
      else
        (p.1.set i { sw with id := p.2 }, p.2 + 1)) (st.sweeps, id)
  let srcReg := (rowSpans chf bs y).foldl (fun sr xis =>
    let i := xis.2.1
    if 0 < sr.getD i 0 ∧ sr.getD i 0 < rid then
      sr.set i (sweeps.getD (sr.getD i 0) ⟨0, 0, 0, 0⟩).id
    else sr) st.srcReg
  (srcReg, id, rid)

/-! #### Region postprocess (`mergeAndFilterRegions` and helpers) -/

/-- `rcRegion` (`RecastRegion.cpp:671-695`), without the fields the
standard postprocess never reads. -/
structure Region where
  spanCount : Nat
  id : Nat
  areaType : Nat
  remap : Bool
  visited : Bool
  overlap : Bool
  connections : List Nat
  floors : List Nat
deriving Repr, DecidableEq

/-- Fresh region record for id `i`. -/
def Region.init (i : Nat) : Region :=
  { spanCount := 0, id := i, areaType := 0, remap := false, visited := false
    overlap := false, connections := [], floors := [] }

/-- `isSolidEdge` (`RecastRegion.cpp:871-886`). -/
def isSolidEdge (chf : Chf) (srcReg : List Nat) (x y i : Nat) (d : Nat) : Bool :=
  let r :=
    match getCon (chf.spanAt i) d with
    | some k => srcReg.getD (chf.nIdx x y d k) 0
    | none => 0
  r ≠ srcReg.getD i 0

/-- The in-place adjacent-duplicate removal loop shared (with slightly
different guards) by `walkContour` and `removeAdjacentNeighbours`.  One
step either erases index `j` (when it equals its cyclic successor) or
advances `j`; `strictGuard` re-checks `size > 1` every iteration
(`removeAdjacentNeighbours`) while `walkContour`'s inline loop does not. -/
def dedupAdjLoop (strictGuard : Bool) : Nat → Nat → List Nat → List Nat
  | 0, _, l => l
  | fuel + 1, j, l =>
    if j < l.length ∧ (strictGuard → 1 < l.length) then
      if l.getD j 0 = l.getD ((j + 1) % l.length) 0 then
        dedupAdjLoop strictGuard fuel j (l.eraseIdx j)
      else
        dedupAdjLoop strictGuard fuel (j + 1) l
    else l

/-- Fuel sufficient for `dedupAdjLoop`: each step either erases one
element or advances the cursor. -/
def dedupFuel (l : List Nat) : Nat := 2 * l.length + 2

/-- `removeAdjacentNeighbours` (`RecastRegion.cpp:700-716`). -/
def removeAdjacentNeighbours (reg : Region) : Region :=
  { reg with connections := dedupAdjLoop true (dedupFuel reg.connections) 0 reg.connections }

/-- `replaceNeighbour` (`RecastRegion.cpp:720-738`). -/
def replaceNeighbour (reg : Region) (oldId newId : Nat) : Region :=
  let neiChanged := oldId ∈ reg.connections
  let reg :=
    { reg with
      connections := reg.connections.map (fun c => if c = oldId then newId else c)
      floors := reg.floors.map (fun f => if f = oldId then newId else f) }
  if neiChanged then removeAdjacentNeighbours reg else reg

/-- `canMergeWithRegion` (`RecastRegion.cpp:746-764`). -/
def canMergeWithRegion (rega regb : Region) : Bool :=
  if rega.areaType ≠ regb.areaType then false
  else if 1 < (rega.connections.filter (· = regb.id)).length then false
  else if regb.id ∈ rega.floors then false
  else true

/-- `addUniqueFloorRegion` (`RecastRegion.cpp:768-774`). -/
def addUniqueFloorRegion (reg : Region) (n : Nat) : Region :=
  if n ∈ reg.floors then reg else { reg with floors := reg.floors ++ [n] }

/-- `mergeRegions` (`RecastRegion.cpp:790-849`): splice the two cyclic
connection sequences at their mutual references, dedup, merge floors and
span counts, clear the absorbed region.  Returns `none` when either
region does not reference the other (the C++ `return false`, which leaves
both regions unchanged). -/
def mergeRegions (rega regb : Region) : Option (Region × Region) :=
  let acon := rega.connections
  let bcon := regb.connections
  match firstSat (· = regb.id) acon, firstSat (· = rega.id) bcon with
  | some insa, some insb =>
    let con := (acon.rotate ((insa + 1) % acon.length)).take (acon.length - 1)
      ++ (bcon.rotate ((insb + 1) % bcon.length)).take (bcon.length - 1)
    let rega := removeAdjacentNeighbours { rega with connections := con }
    let rega := regb.floors.foldl addUniqueFloorRegion rega
    let rega := { rega with spanCount := rega.spanCount + regb.spanCount }
    some (rega, { regb with spanCount := 0, connections := [] })
  | _, _ => none

/-- `isRegionConnectedToBorder` (`RecastRegion.cpp:854-864`). -/
def isRegionConnectedToBorder (reg : Region) : Bool :=
  0 ∈ reg.connections

/-- One step of `walkContour`'s loop (`RecastRegion.cpp:923-974`),
carried state `(x, y, i, dir, curReg, cont)`; returns `none` when the C++
bails out (`ni == -1`). -/
def walkContourStep (chf : Chf) (srcReg : List Nat)
    (st : Nat × Nat × Nat × Nat × Nat × List Nat) :
    Option (Nat × Nat × Nat × Nat × Nat × List Nat) :=
  let (x, y, i, dir, curReg, cont) := st
  let s := chf.spanAt i
  if isSolidEdge chf srcReg x y i dir then
    let r :=
      match getCon s dir with
      | some k => srcReg.getD (chf.nIdx x y dir k) 0
      | none => 0
    let (curReg, cont) := if r ≠ curReg then (r, cont ++ [r]) else (curReg, cont)
    some (x, y, i, (dir + 1) % 4, curReg, cont)
  else
    match getCon s dir with
    | none => none
    | some k =>
      let nx := ((x : Int) + dirOffX dir).toNat
      let ny := ((y : Int) + dirOffZ dir).toNat
      some (nx, ny, chf.nIdx x y dir k, (dir + 3) % 4, curReg, cont)

/-- The bounded loop of `walkContour` (`while (++iter < 40000)`); the
loop body runs at most 39999 times and stops when the starting
`(span, direction)` pair recurs. -/
def walkContourLoop (chf : Chf) (srcReg : List Nat) (starti startDir : Nat) :
    Nat → Nat × Nat × Nat × Nat × Nat × List Nat → List Nat
  | 0, st => st.2.2.2.2.2
  | fuel + 1, st =>
    match walkContourStep chf srcReg st with
    | none => st.2.2.2.2.2
    | some st =>
      if st.2.2.1 = starti ∧ st.2.2.2.1 = startDir then st.2.2.2.2.2
      else walkContourLoop chf srcReg starti startDir fuel st

/-- `walkContour` (`RecastRegion.cpp:903-992`): record the starting
direction's neighbor label, loop, then remove cyclically-adjacent
duplicate labels. -/
def walkContour (chf : Chf) (srcReg : List Nat) (x y i dir : Nat) : List Nat :=
  let curReg :=
    match getCon (chf.spanAt i) dir with
    | some k => srcReg.getD (chf.nIdx x y dir k) 0
    | none => 0
  let cont := walkContourLoop chf srcReg i dir 39999 (x, y, i, dir, curReg, [curReg])
  if 1 < cont.length then dedupAdjLoop false (dedupFuel cont) 0 cont else cont

/-- Phase one of `mergeAndFilterRegions` (`RecastRegion.cpp:1038-1089`):
accumulate span counts, floors (vertical co-occurrence, setting the
`overlap` flag when a label co-occurs with itself), and the contour
neighbor sequence of each region. -/
def buildRegionTopology (chf : Chf) (srcReg : List Nat) (nreg : Nat) : List Region :=
  (List.range (chf.width * chf.height)).foldl (fun regions c =>
    let x := c % chf.width
    let y := c / chf.width
    (List.range (chf.colAt c).length).foldl (fun regions l =>
      let i := chf.gIdx c l
      let r := srcReg.getD i 0
      if r = 0 ∨ r ≥ nreg then regions
      else
        let reg := regions.getD r (Region.init 0)
        let reg := { reg with spanCount := reg.spanCount + 1 }
        let reg := (List.range (chf.colAt c).length).foldl (fun reg l2 =>
          if l2 = l then reg
          else
            let floorId := srcReg.getD (chf.gIdx c l2) 0
            if floorId = 0 ∨ floorId ≥ nreg then reg
            else
              let reg := if floorId = r then { reg with overlap := true } else reg
              addUniqueFloorRegion reg floorId) reg
        if reg.connections ≠ [] then regions.set r reg
        else
          let reg := { reg with areaType := chf.areaAt i }
          match firstSat (fun d => isSolidEdge chf srcReg x y i d) [0, 1, 2, 3] with
          | some d => regions.set r { reg with connections := walkContour chf srcReg x y i d }
          | none => regions.set r reg) regions)
    ((List.range nreg).map Region.init)

/-- The connected-component walk of the small-region removal
(`RecastRegion.cpp:1118-1144`), with the stack modelled head-as-top;
each step pops one entry, so `nreg + 2` fuel covers every reachable
push. -/
def removalDFS (regions : List Region) :
    Nat → List Nat → List Nat → Nat → Bool → List Region × List Nat × Nat × Bool
  | 0, _, trace, cnt, ctb => (regions, trace, cnt, ctb)
  | fuel + 1, stack, trace, cnt, ctb =>
    match stack with
    | [] => (regions, trace, cnt, ctb)
    | ri :: stack =>
      let creg := regions.getD ri (Region.init 0)
      let cnt := cnt + creg.spanCount
      let trace := trace ++ [ri]
      let (regions, stack, ctb) := creg.connections.foldl (fun (p : List Region × List Nat × Bool) cid =>
        let (regions, stack, ctb) := p
        if cid &&& RC_BORDER_REG ≠ 0 then (regions, stack, true)
        else
          let neireg := regions.getD cid (Region.init 0)
          if neireg.visited then (regions, stack, ctb)
          else if neireg.id = 0 ∨ neireg.id &&& RC_BORDER_REG ≠ 0 then (regions, stack, ctb)
          else
            (regions.set cid { neireg with visited := true }, neireg.id :: stack, ctb))
        (regions, stack, ctb)
      removalDFS regions fuel stack trace cnt ctb

/-- Small-region removal (`RecastRegion.cpp:1097-1157`). -/
def removeSmallRegions (minRegionArea nreg : Nat) (regions : List Region) : List Region :=
  (List.range nreg).foldl (fun regions i =>
    let reg := regions.getD i (Region.init 0)
    if reg.id = 0 ∨ reg.id &&& RC_BORDER_REG ≠ 0 then regions
    else if reg.spanCount = 0 then regions
    else if reg.visited then regions
    else
      let regions := regions.set i { reg with visited := true }
      let (regions, trace, cnt, ctb) := removalDFS regions (nreg + 2) [i] [] 0 false
      if cnt < minRegionArea ∧ ¬ctb then
        trace.foldl (fun regions ri =>
          regions.set ri { regions.getD ri (Region.init 0) with spanCount := 0, id := 0 }) regions
      else regions) regions

/-- One pass of the small-region merge loop
(`RecastRegion.cpp:1164-1222`): returns the updated regions and the
number of merges performed. -/
def mergePass (mergeRegionSize nreg : Nat) (regions : List Region) : List Region × Nat :=
  (List.range nreg).foldl (fun (p : List Region × Nat) i =>
    let (regions, mergeCount) := p
    let reg := regions.getD i (Region.init 0)
    if reg.id = 0 ∨ reg.id &&& RC_BORDER_REG ≠ 0 then p
    else if reg.overlap then p
    else if reg.spanCount = 0 then p
    else if reg.spanCount > mergeRegionSize ∧ isRegionConnectedToBorder reg then p
    else
      let best := reg.connections.foldl (fun (b : Nat × Nat) cid =>
        if cid &&& RC_BORDER_REG ≠ 0 then b
        else
          let mreg := regions.getD cid (Region.init 0)
          if mreg.id = 0 ∨ mreg.id &&& RC_BORDER_REG ≠ 0 ∨ mreg.overlap then b
          else if mreg.spanCount < b.1 ∧ canMergeWithRegion reg mreg
              ∧ canMergeWithRegion mreg reg then
            (mreg.spanCount, mreg.id)
          else b) (0xfffffff, reg.id)
      let mergeId := best.2
      if mergeId ≠ reg.id then
        let oldId := reg.id
        let target := regions.getD mergeId (Region.init 0)
        match mergeRegions target reg with
        | some (target, regb) =>
          let regions := (regions.set mergeId target).set i regb
          let regions := (List.range nreg).foldl (fun regions j =>
            let rj := regions.getD j (Region.init 0)
            if rj.id = 0 ∨ rj.id &&& RC_BORDER_REG ≠ 0 then regions
            else
              let rj := if rj.id = oldId then { rj with id := mergeId } else rj
              regions.set j (replaceNeighbour rj oldId mergeId)) regions
          (regions, mergeCount + 1)
        | none => p
      else p) (regions, 0)

/-- The `do { } while (mergeCount > 0)` merge loop; every productive pass
performs at least one merge and each merge zeroes a region, so `nreg + 1`
passes suffice. -/
def mergeLoop (mergeRegionSize nreg : Nat) : Nat → List Region → List Region
  | 0, regions => regions
  | fuel + 1, regions =>
    let (regions, mergeCount) := mergePass mergeRegionSize nreg regions
    if mergeCount > 0 then mergeLoop mergeRegionSize nreg fuel regions
    else regions

/-- ID compaction (`RecastRegion.cpp:1227-1251`). -/
def compactIds (nreg : Nat) (regions : List Region) : List Region × Nat :=
  let regions := regions.map (fun r =>
    { r with remap := ¬(r.id = 0 ∨ r.id &&& RC_BORDER_REG ≠ 0) })
  (List.range nreg).foldl (fun (p : List Region × Nat) i =>
    let (regions, gen) := p
    if ¬(regions.getD i (Region.init 0)).remap then p
    else
      let oldId := (regions.getD i (Region.init 0)).id
      let newId := gen + 1
      let regions := (List.range nreg).foldl (fun regions j =>
        if i ≤ j ∧ (regions.getD j (Region.init 0)).id = oldId then
          regions.set j { regions.getD j (Region.init 0) with id := newId, remap := false }
        else regions) regions
      (regions, newId)) (regions, 0)

/-- `mergeAndFilterRegions` (`RecastRegion.cpp:1012-1266`), returning the
rewritten label array, the compacted max region id, and the ids of the
regions found to overlap vertically. -/
def mergeAndFilterRegions (chf : Chf) (minRegionArea mergeRegionSize maxRegionId : Nat)
    (srcReg : List Nat) : List Nat × Nat × List Nat :=
  let nreg := maxRegionId + 1
  let regions := buildRegionTopology chf srcReg nreg
  let regions := removeSmallRegions minRegionArea nreg regions
  let regions := mergeLoop mergeRegionSize nreg (nreg + 1) regions
  let (regions, gen) := compactIds nreg regions
  let srcReg := (List.range srcReg.length).foldl (fun sr i =>
    if sr.getD i 0 &&& RC_BORDER_REG = 0 then
      sr.set i (regions.getD (sr.getD i 0) (Region.init 0)).id
    else sr) srcReg
  let overlaps := ((List.range nreg).filter (fun i =>
    (regions.getD i (Region.init 0)).overlap)).map (fun i =>
    (regions.getD i (Region.init 0)).id)
  (srcReg, gen, overlaps)

/-- Result of `rcBuildRegionsMonotone`.  `ridPerRow` records, for each
swept row, the final value of the row-local counter `rid` (the C++
accesses `sweeps[previd]` for every allocated `previd < rid` while only
`max(width, height)` entries are allocated). -/
structure MonotoneResult where
  reg : List Nat
  maxRegions : Nat
  overlaps : List Nat
  ridPerRow : List Nat
  ok : Bool
deriving Repr, DecidableEq

/-- `rcBuildRegionsMonotone` (`RecastRegion.cpp:1673-1838`) minus the
allocation-failure paths (the only `return false` sites): border
painting, the per-row sweep, then the standard postprocess.  The result
of `mergeAndFilterRegions` is ignored except for its outputs, and the
overlap list is not even logged here (the C++ comments that monotone
cannot produce overlaps). -/
def rcBuildRegionsMonotone (chf : Chf) (borderSize minRegionArea mergeRegionArea : Nat) :
    MonotoneResult :=
  let w := chf.width
  let h := chf.height
  let srcReg := List.replicate chf.spanCount 0
  let (srcReg, id) :=
    if 0 < borderSize then
      let bw := min w borderSize
      let bh := min h borderSize
      let srcReg := paintRectRegion chf 0 bw 0 h (1 ||| RC_BORDER_REG) srcReg
      let srcReg := paintRectRegion chf (w - bw) w 0 h (2 ||| RC_BORDER_REG) srcReg
      let srcReg := paintRectRegion chf 0 w 0 bh (3 ||| RC_BORDER_REG) srcReg
      let srcReg := paintRectRegion chf 0 w (h - bh) h (4 ||| RC_BORDER_REG) srcReg
      (srcReg, 5)
    else (srcReg, 1)
  let (srcReg, id, rids) :=
    ((List.range h).filter (fun y => borderSize ≤ y ∧ y + borderSize < h)).foldl
      (fun (p : List Nat × Nat × List Nat) y =>
        let (sr, id, rids) := p
        let (sr, id, rid) := monotoneRow chf borderSize y sr id
        (sr, id, rids ++ [rid])) (srcReg, id, [])
  let (srcReg, maxRegions, overlaps) :=
    mergeAndFilterRegions chf minRegionArea mergeRegionArea id srcReg
  { reg := srcReg, maxRegions := maxRegions, overlaps := overlaps
    ridPerRow := rids, ok := true }

/-! #### Watershed partitioning (`rcBuildRegions` and helpers)

The distance field `dist` and its maximum (`chf.dist`, `chf.maxDistance`,
produced by `rcBuildDistanceField`) are inputs of this stage and are
passed explicitly. -/

/-- `LevelStackEntry` (`RecastRegion.cpp:32-38`); `index = -1` marks a
processed entry. -/
structure WEntry where
  x : Nat
  y : Nat
  index : Int
deriving Repr, DecidableEq

/-- `floodRegion`'s 8-neighbor conflict scan
(`RecastRegion.cpp:371-411`): the first foreign non-border region id
found among the reachable orthogonal and two-hop diagonal neighbors of
the same area, or `0`. -/
def floodConflict (chf : Chf) (srcReg : List Nat) (r area cx cy ci : Nat) : Nat :=
  let cs := chf.spanAt ci
  let scan := (List.range 4).foldl (fun (acc : Option Nat) dir =>
    match acc with
    | some _ => acc
    | none =>
      match getCon cs dir with
      | none => none
      | some k =>
        let ai := chf.nIdx cx cy dir k
        if chf.areaAt ai ≠ area then none
        else
          let nr := srcReg.getD ai 0
          if nr &&& RC_BORDER_REG ≠ 0 then none
          else if nr ≠ 0 ∧ nr ≠ r then some nr
          else
            let ax := ((cx : Int) + dirOffX dir).toNat
            let ay := ((cy : Int) + dirOffZ dir).toNat
            let dir2 := (dir + 1) % 4
            match getCon (chf.spanAt ai) dir2 with
            | none => none
            | some k2 =>
              let ai2 := chf.nIdx ax ay dir2 k2
              if chf.areaAt ai2 ≠ area then none
              else
                let nr2 := srcReg.getD ai2 0
                if nr2 ≠ 0 ∧ nr2 ≠ r then some nr2 else none) none
  scan.getD 0

/-- The stack loop of `floodRegion` (`RecastRegion.cpp:356-442`), stack
modelled head-as-top (the C++ pushes and pops at the back). -/
def floodLoop (chf : Chf) (dist : List Nat) (r area lev : Nat) :
    Nat → List (Nat × Nat × Nat) → List Nat → List Nat → Nat →
    List Nat × List Nat × Nat
  | 0, _, srcReg, srcDist, count => (srcReg, srcDist, count)
  | fuel + 1, stack, srcReg, srcDist, count =>
    match stack with
    | [] => (srcReg, srcDist, count)
    | (cx, cy, ci) :: stack =>
      let ar := floodConflict chf srcReg r area cx cy ci
      if ar ≠ 0 then
        floodLoop chf dist r area lev fuel stack (srcReg.set ci 0) srcDist count
      else
        let count := count + 1
        let cs := chf.spanAt ci
        let (srcReg, srcDist, stack) := (List.range 4).foldl
          (fun (p : List Nat × List Nat × List (Nat × Nat × Nat)) dir =>
            let (srcReg, srcDist, stack) := p
            match getCon cs dir with
            | none => p
            | some k =>
              let ai := chf.nIdx cx cy dir k
              if chf.areaAt ai ≠ area then p
              else if dist.getD ai 0 ≥ lev ∧ srcReg.getD ai 0 = 0 then
                let ax := ((cx : Int) + dirOffX dir).toNat
                let ay := ((cy : Int) + dirOffZ dir).toNat
                (srcReg.set ai r, srcDist.set ai 0, (ax, ay, ai) :: stack)
              else p) (srcReg, srcDist, stack)
        floodLoop chf dist r area lev fuel stack srcReg srcDist count

/-- `floodRegion` (`RecastRegion.cpp:335-445`): label the seed, expand,
return whether at least one span kept the new label.  Each surviving pop
pushes at most four entries and every span survives at most once, so
`4 * spanCount + 8` fuel covers the loop. -/
def floodRegion (chf : Chf) (dist : List Nat) (x y i level r : Nat)
    (srcReg srcDist : List Nat) : Bool × List Nat × List Nat :=
  let area := chf.areaAt i
  let lev := level - 2
  let (srcReg, srcDist, count) :=
    floodLoop chf dist r area lev (4 * chf.spanCount + 8) [(x, y, i)]
      (srcReg.set i r) (srcDist.set i 0) 0
  (count > 0, srcReg, srcDist)

/-- The per-entry neighbor search of `expandRegions`
(`RecastRegion.cpp:533-555`). -/
def expandPick (chf : Chf) (srcReg srcDist : List Nat) (x y i : Nat) : Nat × Nat :=
  let area := chf.areaAt i
  let s := chf.spanAt i
  (List.range 4).foldl (fun (p : Nat × Nat) dir =>
    match getCon s dir with
    | none => p
    | some k =>
      let ai := chf.nIdx x y dir k
      if chf.areaAt ai ≠ area then p
      else if srcReg.getD ai 0 > 0 ∧ srcReg.getD ai 0 &&& RC_BORDER_REG = 0 then
        if srcDist.getD ai 0 + 2 < p.2 then (srcReg.getD ai 0, srcDist.getD ai 0 + 2)
        else p
      else p) (srcReg.getD i 0, 0xffff)

/-- One iteration of `expandRegions`' outer loop
(`RecastRegion.cpp:517-586`): scan the stack, batch the assignments in a
dirty list, apply them, and report the failure count and updated stack. -/
def expandIter (chf : Chf) (srcReg srcDist : List Nat) (stack : List WEntry) :
    List WEntry × List (Nat × Nat × Nat) × Nat :=
  stack.foldl (fun (p : List WEntry × List (Nat × Nat × Nat) × Nat) e =>
    let (stack, dirty, failed) := p
    if e.index < 0 then (stack ++ [e], dirty, failed + 1)
    else
      let i := e.index.toNat
      let rd := expandPick chf srcReg srcDist e.x e.y i
      if rd.1 ≠ 0 then
        (stack ++ [{ e with index := -1 }], dirty ++ [(i, rd.1, rd.2)], failed)
      else
        (stack ++ [e], dirty, failed + 1)) ([], [], 0)

/-- The bounded iteration of `expandRegions`. -/
def expandLoop (chf : Chf) (level maxIter : Nat) :
    Nat → Nat → List WEntry → List Nat → List Nat →
    List WEntry × List Nat × List Nat
  | 0, _, stack, srcReg, srcDist => (stack, srcReg, srcDist)
  | fuel + 1, iter, stack, srcReg, srcDist =>
    if stack.length = 0 then (stack, srcReg, srcDist)
    else
      let (stack, dirty, failed) := expandIter chf srcReg srcDist stack
      let (srcReg, srcDist) := dirty.foldl (fun (p : List Nat × List Nat) d =>
        (p.1.set d.1 d.2.1, p.2.set d.1 d.2.2)) (srcReg, srcDist)
      if failed = stack.length then (stack, srcReg, srcDist)
      else if level > 0 ∧ iter + 1 ≥ maxIter then (stack, srcReg, srcDist)
      else expandLoop chf level maxIter fuel (iter + 1) stack srcReg srcDist

/-- `expandRegions` (`RecastRegion.cpp:475-587`). -/
def expandRegions (chf : Chf) (dist : List Nat) (maxIter level : Nat)
    (srcReg srcDist : List Nat) (stack : List WEntry) (fillStack : Bool) :
    List WEntry × List Nat × List Nat :=
  let stack :=
    if fillStack then
      ((List.range (chf.width * chf.height)).map (fun c =>
        (List.range (chf.colAt c).length).filterMap (fun l =>
          let i := chf.gIdx c l
          if dist.getD i 0 ≥ level ∧ srcReg.getD i 0 = 0 ∧ chf.areaAt i ≠ 0 then
            some (⟨c % chf.width, c / chf.width, (i : Int)⟩ : WEntry)
          else none))).flatten
    else
      stack.map (fun e =>
        if 0 ≤ e.index ∧ srcReg.getD e.index.toNat 0 ≠ 0 then { e with index := -1 }
        else e)
  expandLoop chf level maxIter (stack.length + maxIter + 2) 0 stack srcReg srcDist

/-- `sortCellsByLevel` with `nbStacks = 8`, `loglevelsPerStack = 1`
(`RecastRegion.cpp:603-643`). -/
def sortCellsByLevel (chf : Chf) (dist : List Nat) (startLevel : Nat)
    (srcReg : List Nat) : List (List WEntry) :=
  let sl := startLevel >>> 1
  (List.range (chf.width * chf.height)).foldl (fun stks c =>
    (List.range (chf.colAt c).length).foldl (fun stks l =>
      let i := chf.gIdx c l
      if chf.areaAt i = 0 ∨ srcReg.getD i 0 ≠ 0 then stks
      else
        let lvl := dist.getD i 0 >>> 1
        let sId : Int := (sl : Int) - (lvl : Int)
        if sId ≥ 8 then stks
        else
          let sId := (max sId 0).toNat
          stks.set sId (stks.getD sId [] ++
            [⟨c % chf.width, c / chf.width, (i : Int)⟩])) stks)
    (List.replicate 8 [])

/-- `appendStacks` (`RecastRegion.cpp:652-664`). -/
def appendStacks (src dst : List WEntry) (srcReg : List Nat) : List WEntry :=
  dst ++ src.filter (fun e => ¬(e.index < 0 ∨ srcReg.getD e.index.toNat 0 ≠ 0))

/-- The flood phase over one level stack
(`RecastRegion.cpp:1952-1971`): `none` signals the region-id overflow
`return false`. -/
def floodPhase (chf : Chf) (dist : List Nat) (level : Nat) (stack : List WEntry) :
    List Nat → List Nat → Nat → Option (List Nat × List Nat × Nat)
  | srcReg, srcDist, regionId =>
    stack.foldl (fun acc e =>
      match acc with
      | none => none
      | some (srcReg, srcDist, regionId) =>
        if (0 : Int) ≤ e.index ∧ srcReg.getD e.index.toNat 0 = 0 then
          let (flooded, srcReg, srcDist) :=
            floodRegion chf dist e.x e.y e.index.toNat level regionId srcReg srcDist
          if flooded then
            if regionId = 0xFFFF then none
            else some (srcReg, srcDist, regionId + 1)
          else some (srcReg, srcDist, regionId)
        else some (srcReg, srcDist, regionId)) (some (srcReg, srcDist, regionId))

/-- The `while (level > 0)` loop of `rcBuildRegions`
(`RecastRegion.cpp:1927-1973`): drop the water level by two, rebucket
every eighth iteration, expand, then flood-fill the still-unlabelled
entries of the current stack.  `n` counts iterations (`sId = n % 8`). -/
def watershedLoop (chf : Chf) (dist : List Nat) :
    Nat → Nat → Nat → List (List WEntry) → List Nat → List Nat → Nat →
    Option (List Nat × List Nat × Nat)
  | 0, _, _, _, srcReg, srcDist, regionId => some (srcReg, srcDist, regionId)
  | fuel + 1, level, n, stks, srcReg, srcDist, regionId =>
    if level = 0 then some (srcReg, srcDist, regionId)
    else
      let level := level - 2
      let sId := n % 8
      let stks :=
        if sId = 0 then sortCellsByLevel chf dist level srcReg
        else stks.set sId (appendStacks (stks.getD (sId - 1) []) (stks.getD sId []) srcReg)
      let (stk, srcReg, srcDist) :=
        expandRegions chf dist 8 level srcReg srcDist (stks.getD sId []) false
      let stks := stks.set sId stk
      match floodPhase chf dist level stk srcReg srcDist regionId with
      | none => none
      | some (srcReg, srcDist, regionId) =>
        watershedLoop chf dist fuel level (n + 1) stks srcReg srcDist regionId

/-- Result of `rcBuildRegions`. -/
structure RegionsResult where
  reg : List Nat
  maxRegions : Nat
  overlaps : List Nat
  overflowed : Bool
  ok : Bool
deriving Repr, DecidableEq

/-- `rcBuildRegions` (`RecastRegion.cpp:1864-2001`) minus the
allocation-failure path: border painting, the watershed level loop, a
final full expansion, then the standard postprocess.  A non-empty
overlap list is only logged (`RecastRegion.cpp:1990-1993`); the only
remaining failure site is the region-id overflow inside the level
loop. -/
def rcBuildRegions (chf : Chf) (dist : List Nat) (maxDist : Nat)
    (borderSize minRegionArea mergeRegionArea : Nat) : RegionsResult :=
  let w := chf.width
  let h := chf.height
  let srcReg := List.replicate chf.spanCount 0
  let srcDist := List.replicate chf.spanCount 0
  let level := ((maxDist + 1) / 2) * 2
  let (srcReg, regionId) :=
    if 0 < borderSize then
      let bw := min w borderSize
      let bh := min h borderSize
      let srcReg := paintRectRegion chf 0 bw 0 h (1 ||| RC_BORDER_REG) srcReg
      let srcReg := paintRectRegion chf (w - bw) w 0 h (2 ||| RC_BORDER_REG) srcReg
      let srcReg := paintRectRegion chf 0 w 0 bh (3 ||| RC_BORDER_REG) srcReg
      let srcReg := paintRectRegion chf 0 w (h - bh) h (4 ||| RC_BORDER_REG) srcReg
      (srcReg, 5)
    else (srcReg, 1)
  match watershedLoop chf dist (level + 2) level 0 (List.replicate 8 []) srcReg srcDist regionId with
  | none =>
    { reg := [], maxRegions := 0, overlaps := [], overflowed := true, ok := false }
  | some (srcReg, srcDist, regionId) =>
    let (_, srcReg, _) := expandRegions chf dist 64 0 srcReg srcDist [] true
    let (srcReg, maxRegions, overlaps) :=
      mergeAndFilterRegions chf minRegionArea mergeRegionArea regionId srcReg
    { reg := srcReg, maxRegions := maxRegions, overlaps := overlaps
      overflowed := false, ok := true }

/-! ### Rasterization over exact arithmetic
(`RecastRasterization.cpp`: `overlapBounds`, `dividePoly`, `rasterizeTri`)

Vertices are points of `ℚ³`; the float computations of the C++ are
modelled exactly.  `rasterizeTri` is split into its two clipping loops,
each returning the list of `addSpan` calls it makes, in call order. -/

/-- A vertex. -/
structure V3 where
  x : ℚ
  y : ℚ
  z : ℚ
deriving Repr, DecidableEq, Inhabited

/-- Coordinate along axis `0 = X`, `1 = Y`, `2 = Z` (`rcAxis`). -/
def axisVal (axis : Nat) (v : V3) : ℚ :=
  match axis with
  | 0 => v.x
  | 1 => v.y
  | _ => v.z

/-- `overlapBounds` (`RecastRasterization.cpp:31-37`). -/
def overlapBounds (aMin aMax bMin bMax : V3) : Bool :=
  aMin.x ≤ bMax.x && aMax.x ≥ bMin.x &&
  aMin.y ≤ bMax.y && aMax.y ≥ bMin.y &&
  aMin.z ≤ bMax.z && aMax.z ≥ bMin.z

/-- `dividePoly` (`RecastRasterization.cpp:315-378`): split a convex
polygon by the plane `axis = axisOffset`.  `inVertAxisDelta` is
`axisOffset - v[axis]`; the edge loop pairs each vertex `A` with its
cyclic predecessor `B`.  Crossing edges emit the interpolated point into
both outputs; vertices with positive delta go to the first output,
negative to the second, and vertices exactly on the plane go to the
first output and, in the same-side branch, also to the second. -/
def divideStep (axisOffset : ℚ) (axis : Nat) (out : List V3 × List V3)
    (ab : V3 × V3) : List V3 × List V3 :=
  let A := ab.1
  let B := ab.2
  let dA := axisOffset - axisVal axis A
  let dB := axisOffset - axisVal axis B
  if (decide (0 ≤ dA)) = (decide (0 ≤ dB)) then
    if 0 ≤ dA then
      if dA ≠ 0 then (out.1 ++ [A], out.2)
      else (out.1 ++ [A], out.2 ++ [A])
    else (out.1, out.2 ++ [A])
  else
    let s := dB / (dB - dA)
    let m : V3 :=
      ⟨B.x + (A.x - B.x) * s, B.y + (A.y - B.y) * s, B.z + (A.z - B.z) * s⟩
    let out := (out.1 ++ [m], out.2 ++ [m])
    if 0 < dA then (out.1 ++ [A], out.2)
    else if dA < 0 then (out.1, out.2 ++ [A])
    else out

/-- The full clip: fold the edge step over each vertex paired with its
cyclic predecessor. -/
def dividePoly (inP : List V3) (axisOffset : ℚ) (axis : Nat) : List V3 × List V3 :=
  let pairs := inP.zip ((inP.getLast?).getD default :: inP.dropLast)
  pairs.foldl (divideStep axisOffset axis) ([], [])

/-- C `(int)` cast of a rational: truncation toward zero. -/
def cTrunc (q : ℚ) : Int :=
  if q < 0 then -Int.floor (-q) else Int.floor q

/-- One `addSpan` call made by `rasterizeTri`: target cell and quantized
span heights. -/
structure Emit where
  ex : Int
  ez : Int
  s0 : Int
  s1 : Int
deriving Repr, DecidableEq

/-- The inner (X) clipping loop of `rasterizeTri`
(`RecastRasterization.cpp:566-659`), iterating `x` from `x0`; the first
component of `dividePoly`'s output is the cell fragment, the second is
the remainder kept for the next column.  Emission happens only for
fragments with at least three vertices in a column `x ≥ 0`, after the
Y-range tests and quantization of `RecastRasterization.cpp:598-655`. -/
def xLoop (bminX bminY cs ich bY : ℚ) (z : Int) :
    Nat → Int → List V3 → List Emit
  | 0, _, _ => []
  | n + 1, x, inRowP =>
    let cx := bminX + (x : ℚ) * cs
    let pr := dividePoly inRowP (cx + cs) 0
    let tail := xLoop bminX bminY cs ich bY z n (x + 1) pr.2
    if pr.1.length < 3 then tail
    else if x < 0 then tail
    else
      match pr.1 with
      | [] => tail
      | v :: vs =>
        let spanMin := vs.foldl (fun a u => min a u.y) v.y - bminY
        let spanMax := vs.foldl (fun a u => max a u.y) v.y - bminY
        if spanMax < 0 then tail
        else if spanMin > bY then tail
        else
          let spanMin := if spanMin < 0 then 0 else spanMin
          let spanMax := if spanMax > bY then bY else spanMax
          let s0 := rcClampI (Int.floor (spanMin * ich)) 0 8191
          let s1 := rcClampI (Int.ceil (spanMax * ich)) (s0 + 1) 8191
          ⟨x, z, s0, s1⟩ :: tail

/-- The outer (Z) clipping loop of `rasterizeTri`
(`RecastRasterization.cpp:495-660`): split off the current row strip,
derive its X range (with the `x1 < 0 || x0 >= w` row rejection and the
`[-1, w-1]`/`[0, w-1]` clamps), and run the inner loop. -/
def zLoop (bminX bminY bminZ cs ics ich bY : ℚ) (w : Nat) :
    Nat → Int → List V3 → List Emit
  | 0, _, _ => []
  | n + 1, z, inP =>
    let cz := bminZ + (z : ℚ) * cs
    let pr := dividePoly inP (cz + cs) 2
    let tail := zLoop bminX bminY bminZ cs ics ich bY w n (z + 1) pr.2
    if pr.1.length < 3 then tail
    else if z < 0 then tail
    else
      match pr.1 with
      | [] => tail
      | v :: vs =>
        let minX := vs.foldl (fun a u => min a u.x) v.x
        let maxX := vs.foldl (fun a u => max a u.x) v.x
        let x0r := cTrunc ((minX - bminX) * ics)
        let x1r := cTrunc ((maxX - bminX) * ics)
        if x1r < 0 ∨ x0r ≥ (w : Int) then tail
        else
          let x0 := rcClampI x0r (-1) ((w : Int) - 1)
          let x1 := rcClampI x1r 0 ((w : Int) - 1)
          (xLoop bminX bminY cs ich bY z (x1 + 1 - x0).toNat x0 pr.1) ++ tail

/-- `rasterizeTri` (`RecastRasterization.cpp:411-664`), returning the
list of `addSpan` calls in call order: AABB early-out, Z-range derivation
with the `[-1, h-1]`/`[0, h-1]` clamps, then the two clipping loops. -/
def rasterizeTri (v0 v1 v2 : V3) (bmin bmax : V3) (w h : Nat) (cs ch : ℚ) :
    List Emit :=
  let ics := 1 / cs
  let ich := 1 / ch
  let triMin : V3 := ⟨min (min v0.x v1.x) v2.x, min (min v0.y v1.y) v2.y,
    min (min v0.z v1.z) v2.z⟩
  let triMax : V3 := ⟨max (max v0.x v1.x) v2.x, max (max v0.y v1.y) v2.y,
    max (max v0.z v1.z) v2.z⟩
  if ¬overlapBounds triMin triMax bmin bmax then []
  else
    let bY := bmax.y - bmin.y
    let z0r := cTrunc ((triMin.z - bmin.z) * ics)
    let z1r := cTrunc ((triMax.z - bmin.z) * ics)
    let z0 := rcClampI z0r (-1) ((h : Int) - 1)
    let z1 := rcClampI z1r 0 ((h : Int) - 1)
    zLoop bmin.x bmin.y bmin.z cs ics ich bY w (z1 + 1 - z0).toNat z0 [v0, v1, v2]

/-- `rcRasterizeTriangle` applied to a heightfield: fold the emitted
`addSpan` calls, in order, over the target columns (the calls commute
with the interleaved clipping because each call only touches its own
column). -/
def rasterizeTriHf (hf : Hf) (v0 v1 v2 : V3) (area : Nat)
    (bmin bmax : V3) (cs ch : ℚ) (fmt : Int) : Hf :=
  (rasterizeTri v0 v1 v2 bmin bmax hf.width hf.height cs ch).foldl
    (fun hf e => rcAddSpan hf e.ex.toNat e.ez.toNat e.s0.toNat e.s1.toNat area fmt) hf

/-! ### Well-formedness predicates and spec-side definitions -/

/-- A single span is well formed: `smin < smax ≤ RC_SPAN_MAX_HEIGHT`. -/
def SpanOk (s : Span) : Prop := s.smin < s.smax ∧ s.smax ≤ 8191

instance (s : Span) : Decidable (SpanOk s) :=
  inferInstanceAs (Decidable (s.smin < s.smax ∧ s.smax ≤ 8191))

/-- A well-formed column chain: consecutive spans separated by open space
(`a.smax < b.smin`) and every span well formed. -/
def ColWf (l : List Span) : Prop :=
  l.Chain' (fun a b => a.smax < b.smin) ∧ ∀ s ∈ l, SpanOk s

/-- The interval of voxel heights `[smin, smax]` covered by a span,
as a set of rationals (so that merely touching integer intervals such as
`[0,5]` and `[6,9]` stay distinguishable from `[0,9]`). -/
def spanIcc (s : Span) : Set ℚ := Set.Icc (s.smin : ℚ) (s.smax : ℚ)

/-- The solid set covered by a column. -/
def colSet : List Span → Set ℚ
  | [] => ∅
  | s :: t => spanIcc s ∪ colSet t

/-- The interval data of a span, forgetting the area tag. -/
def iv (s : Span) : Nat × Nat := (s.smin, s.smax)

/-- One `(min, max, area)` insertion triple. -/
def insOk (t : Nat × Nat × Nat) : Prop := t.1 < t.2.1 ∧ t.2.1 ≤ 8191

instance (t : Nat × Nat × Nat) : Decidable (insOk t) :=
  inferInstanceAs (Decidable (t.1 < t.2.1 ∧ t.2.1 ≤ 8191))

/-- Fold a list of insertions into one column. -/
def insertAll (fmt : Int) (l : List (Nat × Nat × Nat)) : List Span :=
  l.foldl (fun col t => addSpan fmt t.1 t.2.1 t.2.2 col) []

/-- The claim's description of the compact fill, taken literally from the
spec sentence: `y = smax`, `h = min(nextSpan.smin, 0xFFFF) - smax` with no
further clamping, area copied.  (Second definition of the fill, written
from the spec's words, for comparison against `compactColumn`.) -/
def fillPerSpecClaim (col : List Span) : List CSpan :=
  (withTops col).filterMap (fun st =>
    if st.1.area ≠ 0 then
      some { y := st.1.smax, h := ((min st.2 0xffff) - (st.1.smax : Int)).toNat
             area := st.1.area }
    else none)

/-- The amended description of the compact fill: as the claim, but the
open-space height is additionally clamped to the 8-bit field,
`h = min(min(nextSpan.smin, 0xFFFF) - smax, 255)`. -/
def fillAmended (col : List Span) : List CSpan :=
  (withTops col).filterMap (fun st =>
    if st.1.area ≠ 0 then
      some { y := st.1.smax
             h := min ((min st.2 0xffff) - (st.1.smax : Int)).toNat 255
             area := st.1.area }
    else none)

/-- The solid set described by a list of insertion triples. -/
def insSet : List (Nat × Nat × Nat) → Set ℚ
  | [] => ∅
  | t :: r => Set.Icc (t.1 : ℚ) (t.2.1 : ℚ) ∪ insSet r

/-- One `rcAddSpan` call. -/
structure AddOp where
  x : Nat
  z : Nat
  mn : Nat
  mx : Nat
  area : Nat
  fmt : Int
deriving Repr, DecidableEq

/-- Apply a sequence of `rcAddSpan` calls to a heightfield. -/
def applyOps (hf : Hf) (ops : List AddOp) : Hf :=
  ops.foldl (fun hf o => rcAddSpan hf o.x o.z o.mn o.mx o.area o.fmt) hf

/-! ### Concrete inputs used by counterexamples and witnesses -/

/-- Two columns; the second column has two stacked walkable spans whose
open spaces both clear the single span of the first column
(`walkableHeight = 3`, `walkableClimb = 4`). -/
def hfStacked : Hf :=
  { width := 2
    height := 1
    cols := [[⟨0, 1, 63⟩], [⟨0, 1, 63⟩, ⟨4, 5, 63⟩]] }

/-- Its compact heightfield. -/
def chfStacked : Chf := rcBuildCompactHeightfield 3 4 hfStacked

/-- One row of four walkable columns at mutually unclimbable heights:
every span of the row allocates a fresh row-local sweep id. -/
def hfIsolated4 : Hf :=
  { width := 4
    height := 1
    cols := [[⟨0, 1, 63⟩], [⟨100, 101, 63⟩], [⟨200, 201, 63⟩], [⟨300, 301, 63⟩]] }

/-- Its compact heightfield (`walkableHeight = 3`, `walkableClimb = 1`). -/
def chfIsolated4 : Chf := rcBuildCompactHeightfield 3 1 hfIsolated4

/-- A column of 64 stacked walkable spans next to a column whose single
span connects only to layer 63 of the tower (`walkableHeight = 3`,
`walkableClimb = 1`). -/
def hfTower : Hf :=
  { width := 2
    height := 1
    cols := [(List.range 64).map (fun k => ⟨10 * k, 10 * k + 1, 63⟩),
             [⟨630, 631, 63⟩]] }

/-- A single walkable span in a 1×1 grid (its only span is an erosion
boundary seed, distance 0). -/
def hfSingle : Hf :=
  { width := 1
    height := 1
    cols := [[⟨0, 1, 63⟩]] }

/-- Its compact heightfield. -/
def chfSingle : Chf := rcBuildCompactHeightfield 1 0 hfSingle

/-!
## Theorems

Helper lemmas first, then one theorem per claim (with its witness or
counterexample where required).
-/

/-! ### Column well-formedness (claims C2, C3, C4) -/

/-- In a well-formed column, the head's `smax` is below every later
span's `smin`. -/
theorem colWf_cons_forall {c : Span} {rest : List Span} (hwf : ColWf (c :: rest)) :
    ∀ t ∈ rest, c.smax < t.smin := by
  induction rest generalizing c with
  | nil => intro t ht; cases ht
  | cons b bs ih =>
    rcases hwf with ⟨hch, hok⟩
    rw [List.chain'_cons] at hch
    intro t ht
    rcases List.mem_cons.mp ht with rfl | ht
    · exact hch.1
    · have hb : c.smax < b.smin := hch.1
      obtain ⟨hb1, hb2⟩ := hok b (by simp)
      have := ih (c := b) ⟨hch.2, fun s hs => hok s (by simp [hs])⟩ t ht
      omega

/-- Tail of a well-formed column is well formed. -/
theorem colWf_tail {c : Span} {rest : List Span} (hwf : ColWf (c :: rest)) :
    ColWf rest :=
  ⟨(List.chain'_cons'.mp hwf.1).2, fun s hs => hwf.2 s (by simp [hs])⟩

/-- `addSpanLoop` preserves well-formedness, and keeps every `smin` of
the result above any lower bound below both the inserted span and the
whole column. -/
theorem addSpanLoop_wf (fmt : Int) :
    ∀ (col : List Span) (s : Span), ColWf col → SpanOk s →
      ColWf (addSpanLoop fmt s col) ∧
      ∀ lb : Nat, (∀ t ∈ col, lb < t.smin) → lb < s.smin →
        ∀ t ∈ addSpanLoop fmt s col, lb < t.smin := by
  intro col
  induction col with
  | nil =>
    intro s _ hs
    refine ⟨⟨List.chain'_singleton s, ?_⟩, ?_⟩
    · intro t ht; rcases List.mem_singleton.mp ht with rfl; exact hs
    · intro lb _ hlb t ht; rcases List.mem_singleton.mp ht with rfl; exact hlb
  | cons c rest ih =>
    intro s hwf hs
    unfold addSpanLoop
    by_cases h1 : c.smin > s.smax
    · simp only [if_pos h1]
      have hcok : SpanOk c := hwf.2 c (by simp)
      constructor
      · refine ⟨?_, ?_⟩
        · rw [List.chain'_cons]
          exact ⟨by omega, hwf.1⟩
        · intro t ht
          rcases List.mem_cons.mp ht with rfl | ht
          · exact hs
          · exact hwf.2 t ht
      · intro lb hcol hlb t ht
        rcases List.mem_cons.mp ht with rfl | ht
        · exact hlb
        · exact hcol t ht
    · by_cases h2 : c.smax < s.smin
      · simp only [if_neg h1, if_pos h2]
        have hrest : ColWf rest := colWf_tail hwf
        obtain ⟨hwf2, hlb2⟩ := ih s hrest hs
        have hall : ∀ t ∈ rest, c.smax < t.smin := colWf_cons_forall hwf
        have hres : ∀ t ∈ addSpanLoop fmt s rest, c.smax < t.smin :=
          hlb2 c.smax hall h2
        constructor
        · refine ⟨?_, ?_⟩
          · rw [List.chain'_cons']
            refine ⟨?_, hwf2.1⟩
            intro y hy
            exact hres y (List.mem_of_mem_head? hy)
          · intro t ht
            rcases List.mem_cons.mp ht with rfl | ht
            · exact hwf.2 _ (by simp)
            · exact hwf2.2 t ht
        · intro lb hcol hlb t ht
          rcases List.mem_cons.mp ht with rfl | ht
          · exact hcol _ (by simp)
          · exact hlb2 lb (fun u hu => hcol u (by simp [hu])) hlb t ht
      · simp only [if_neg h1, if_neg h2]
        have hcok : SpanOk c := hwf.2 c (by simp)
        have hrest : ColWf rest := colWf_tail hwf
        set m1 : Span :=
          { smin := if c.smin < s.smin then c.smin else s.smin
            smax := if c.smax > s.smax then c.smax else s.smax
            area := s.area } with hm1
        set m2 := if |(m1.smax : Int) - (c.smax : Int)| ≤ fmt then
            { m1 with area := max m1.area c.area } else m1 with hm2
        have hm2min : m2.smin = m1.smin := by
          rw [hm2]; split <;> rfl
        have hm2max : m2.smax = m1.smax := by
          rw [hm2]; split <;> rfl
        have hmok : SpanOk m2 := by
          rcases hs with ⟨h3, h4⟩
          rcases hcok with ⟨h5, h6⟩
          constructor
          · rw [hm2min, hm2max, hm1]; simp only
            split <;> split <;> omega
          · rw [hm2max, hm1]; simp only
            split <;> omega
        obtain ⟨hwf2, hlb2⟩ := ih m2 hrest hmok
        refine ⟨hwf2, ?_⟩
        intro lb hcol hlb t ht
        have hml : lb < m2.smin := by
          have hc : lb < c.smin := hcol c (by simp)
          rw [hm2min, hm1]; simp only
          split <;> omega
        exact hlb2 lb (fun u hu => hcol u (by simp [hu])) hml t ht

/-- `addSpan` preserves well-formedness when the inserted interval is
valid (`min < max ≤ 8191`, making the bit-field truncation the
identity). -/
theorem addSpan_wf {col : List Span} (fmt : Int) {mn mx : Nat} (a : Nat)
    (hwf : ColWf col) (h1 : mn < mx) (h2 : mx ≤ 8191) :
    ColWf (addSpan fmt mn mx a col) := by
  have hmn : mn % 8192 = mn := Nat.mod_eq_of_lt (by omega)
  have hmx : mx % 8192 = mx := Nat.mod_eq_of_lt (by omega)
  unfold addSpan
  rw [hmn, hmx]
  exact (addSpanLoop_wf fmt col _ hwf ⟨h1, h2⟩).1

/-- A well-formed column is pairwise non-overlapping. -/
theorem colWf_pairwise {l : List Span} (hwf : ColWf l) :
    l.Pairwise (fun a b => a.smax < b.smin) := by
  induction l with
  | nil => exact List.Pairwise.nil
  | cons c rest ih =>
    exact List.pairwise_cons.mpr ⟨colWf_cons_forall hwf, ih (colWf_tail hwf)⟩

/-- `getD` of a column table all of whose members are well formed. -/
theorem colWf_getD {cols : List (List Span)} (hwf : ∀ col ∈ cols, ColWf col)
    (n : Nat) : ColWf (cols.getD n []) := by
  by_cases hn : n < cols.length
  · rw [List.getD_eq_getElem?_getD, List.getElem?_eq_getElem hn]
    exact hwf _ (List.getElem_mem hn)
  · rw [List.getD_eq_getElem?_getD, List.getElem?_eq_none (by omega)]
    exact ⟨List.chain'_nil, by simp⟩

/-- Applying any sequence of valid `rcAddSpan` calls preserves the
per-column invariant. -/
theorem applyOps_wf (ops : List AddOp)
    (hops : ∀ o ∈ ops, o.mn < o.mx ∧ o.mx ≤ 8191) :
    ∀ hf : Hf, (∀ col ∈ hf.cols, ColWf col) →
      ∀ col ∈ (applyOps hf ops).cols, ColWf col := by
  induction ops with
  | nil => intro hf hwf; simpa [applyOps] using hwf
  | cons o os ih =>
    intro hf hwf
    have hstep : ∀ col ∈ (rcAddSpan hf o.x o.z o.mn o.mx o.area o.fmt).cols, ColWf col := by
      intro col hcol
      rcases List.mem_or_eq_of_mem_set hcol with h | rfl
      · exact hwf col h
      · exact addSpan_wf o.fmt o.area (colWf_getD hwf _)
          (hops o (by simp)).1 (hops o (by simp)).2
    have : applyOps hf (o :: os) =
        applyOps (rcAddSpan hf o.x o.z o.mn o.mx o.area o.fmt) os := by
      simp [applyOps]
    rw [this]
    exact ih (fun u hu => hops u (by simp [hu])) _ hstep

/-- C2, as stated, is false: `addSpan` happily inserts a degenerate span.
`rcAddSpan(x=0, z=0, min=5, max=3)` is a successful insertion, and the
resulting chain `[(5, 3)]` violates `smin < smax`. -/
theorem claim_C2_counterexample :
    ¬ ∀ col ∈ (applyOps (rcCreateHeightfield 1 1) [⟨0, 0, 5, 3, 1, 0⟩]).cols,
        col.Pairwise (fun a b => a.smax < b.smin) ∧
        ∀ s ∈ col, s.smin < s.smax ∧ s.smax ≤ 8191 := by
  decide

/-- C2 (amended): after `rcCreateHeightfield` and any sequence of
successful `addSpan` insertions **whose arguments satisfy
`min < max ≤ 8191`** (as the insertions issued by triangle rasterization
do except at the very top of the 13-bit height range), every column's
span chain is pairwise non-overlapping with ascending `smin`, and every
span satisfies `smin < smax ≤ 8191`. -/
theorem claim_C2 (w h : Nat) (ops : List AddOp)
    (hops : ∀ o ∈ ops, o.mn < o.mx ∧ o.mx ≤ 8191) :
    ∀ col ∈ (applyOps (rcCreateHeightfield w h) ops).cols,
      col.Pairwise (fun a b => a.smax < b.smin) ∧
      ∀ s ∈ col, s.smin < s.smax ∧ s.smax ≤ 8191 := by
  have hinit : ∀ col ∈ (rcCreateHeightfield w h).cols, ColWf col := by
    intro col hcol
    rw [rcCreateHeightfield] at hcol
    simp only [List.mem_replicate] at hcol
    rw [hcol.2]
    exact ⟨List.chain'_nil, by simp⟩
  intro col hcol
  have hwf := applyOps_wf ops hops _ hinit col hcol
  exact ⟨colWf_pairwise hwf, hwf.2⟩

/-- Witness for C2 at a concrete insertion sequence. -/
theorem claim_C2_witness :
    (∀ o ∈ ([⟨0, 0, 2, 5, 63, 1⟩, ⟨0, 0, 4, 9, 7, 1⟩] : List AddOp),
       o.mn < o.mx ∧ o.mx ≤ 8191) ∧
    ∀ col ∈ (applyOps (rcCreateHeightfield 1 1)
        [⟨0, 0, 2, 5, 63, 1⟩, ⟨0, 0, 4, 9, 7, 1⟩]).cols,
      col.Pairwise (fun a b => a.smax < b.smin) ∧
      ∀ s ∈ col, s.smin < s.smax ∧ s.smax ≤ 8191 :=
  ⟨by decide, claim_C2 1 1 [⟨0, 0, 2, 5, 63, 1⟩, ⟨0, 0, 4, 9, 7, 1⟩] (by decide)⟩

/-! ### Order-independence of the merged intervals (claim C3) -/

/-- The union of two overlapping-or-touching closed intervals is their
hull. -/
theorem Icc_union_overlap {a b c d : ℚ} (_hab : a ≤ b) (_hcd : c ≤ d)
    (h1 : c ≤ b) (h2 : a ≤ d) :
    Set.Icc a b ∪ Set.Icc c d = Set.Icc (min a c) (max b d) := by
  ext x
  simp only [Set.mem_union, Set.mem_Icc, le_max_iff, min_le_iff]
  constructor
  · rintro (⟨hx1, hx2⟩ | ⟨hx1, hx2⟩)
    · exact ⟨Or.inl hx1, Or.inl hx2⟩
    · exact ⟨Or.inr hx1, Or.inr hx2⟩
  · rintro ⟨h3, h4⟩
    rcases h3 with h3 | h3 <;> rcases h4 with h4 | h4
    · exact Or.inl ⟨h3, h4⟩
    · by_cases hxb : x ≤ b
      · exact Or.inl ⟨h3, hxb⟩
      · exact Or.inr ⟨by linarith, h4⟩
    · by_cases hax : a ≤ x
      · exact Or.inl ⟨hax, h4⟩
      · exact Or.inr ⟨h3, by linarith⟩
    · exact Or.inr ⟨h3, h4⟩

/-- `addSpanLoop` unions the inserted interval into the column's solid
set (and does nothing else to it). -/
theorem colSet_addSpanLoop (fmt : Int) :
    ∀ (col : List Span) (s : Span), (∀ t ∈ col, t.smin ≤ t.smax) →
      s.smin ≤ s.smax →
      colSet (addSpanLoop fmt s col) = spanIcc s ∪ colSet col := by
  intro col
  induction col with
  | nil => intro s _ _; simp [addSpanLoop, colSet]
  | cons c rest ih =>
    intro s hcol hs
    unfold addSpanLoop
    by_cases h1 : c.smin > s.smax
    · simp only [if_pos h1, colSet]
    · by_cases h2 : c.smax < s.smin
      · simp only [if_neg h1, if_pos h2, colSet]
        rw [ih s (fun t ht => hcol t (by simp [ht])) hs]
        rw [← Set.union_assoc, Set.union_comm (spanIcc c) (spanIcc s), Set.union_assoc]
      · simp only [if_neg h1, if_neg h2]
        set m1 : Span :=
          { smin := if c.smin < s.smin then c.smin else s.smin
            smax := if c.smax > s.smax then c.smax else s.smax
            area := s.area } with hm1
        set m2 := if |(m1.smax : Int) - (c.smax : Int)| ≤ fmt then
            { m1 with area := max m1.area c.area } else m1 with hm2
        have hm2min : m2.smin = if c.smin < s.smin then c.smin else s.smin := by
          rw [hm2]; split <;> rfl
        have hm2max : m2.smax = if c.smax > s.smax then c.smax else s.smax := by
          rw [hm2]; split <;> rfl
        have hcok : c.smin ≤ c.smax := hcol c (by simp)
        have hm2ok : m2.smin ≤ m2.smax := by
          rw [hm2min, hm2max]; split <;> split <;> omega
        rw [ih m2 (fun t ht => hcol t (by simp [ht])) hm2ok]
        have hspan : spanIcc m2 = spanIcc c ∪ spanIcc s := by
          have hminq : (m2.smin : ℚ) = min (c.smin : ℚ) (s.smin : ℚ) := by
            rw [hm2min]
            have : (if c.smin < s.smin then c.smin else s.smin) = min c.smin s.smin := by
              split <;> omega
            rw [this]
            push_cast
            rfl
          have hmaxq : (m2.smax : ℚ) = max (c.smax : ℚ) (s.smax : ℚ) := by
            rw [hm2max]
            have : (if c.smax > s.smax then c.smax else s.smax) = max c.smax s.smax := by
              split <;> omega
            rw [this]
            push_cast
            rfl
          rw [spanIcc, hminq, hmaxq, spanIcc, spanIcc]
          rw [Icc_union_overlap (by exact_mod_cast hcok) (by exact_mod_cast hs)
            (by exact_mod_cast Nat.le_of_not_lt h2) (by exact_mod_cast Nat.le_of_not_lt h1)]
        rw [hspan, colSet]
        rw [← Set.union_assoc, Set.union_comm (spanIcc c) (spanIcc s), Set.union_assoc]

/-- Membership in a column's solid set. -/
theorem mem_colSet_iff {l : List Span} {x : ℚ} :
    x ∈ colSet l ↔ ∃ u ∈ l, (u.smin : ℚ) ≤ x ∧ x ≤ (u.smax : ℚ) := by
  induction l with
  | nil => simp [colSet]
  | cons c rest ih =>
    simp only [colSet, Set.mem_union, ih, spanIcc, Set.mem_Icc, List.mem_cons]
    constructor
    · rintro (h | ⟨u, hu, h⟩)
      · exact ⟨c, Or.inl rfl, h⟩
      · exact ⟨u, Or.inr hu, h⟩
    · rintro ⟨u, rfl | hu, h⟩
      · exact Or.inl h
      · exact Or.inr ⟨u, hu, h⟩

/-- In a well-formed column every later span lies above the head's
`smin`. -/
theorem colWf_head_le {a : Span} {t : List Span} (hwf : ColWf (a :: t)) :
    ∀ u ∈ a :: t, a.smin ≤ u.smin := by
  intro u hu
  rcases List.mem_cons.mp hu with rfl | hu
  · exact le_refl _
  · have h1 := colWf_cons_forall hwf u hu
    have h2 := (hwf.2 a (by simp)).1
    omega

/-- Every point of a well-formed column's solid set lies at or above the
head's `smin`. -/
theorem colSet_lb {a : Span} {t : List Span} (hwf : ColWf (a :: t)) :
    ∀ x ∈ colSet (a :: t), (a.smin : ℚ) ≤ x := by
  intro x hx
  obtain ⟨u, hu, h1, _⟩ := mem_colSet_iff.mp hx
  have := colWf_head_le hwf u hu
  calc (a.smin : ℚ) ≤ (u.smin : ℚ) := by exact_mod_cast this
    _ ≤ x := h1

/-- Two well-formed columns with the same solid set have heads with the
same `smin`. -/
theorem colSet_head_smin_eq {a b : Span} {t1 t2 : List Span}
    (h1 : ColWf (a :: t1)) (h2 : ColWf (b :: t2))
    (heq : colSet (a :: t1) = colSet (b :: t2)) : a.smin = b.smin := by
  have ha : (a.smin : ℚ) ∈ colSet (a :: t1) := by
    rw [mem_colSet_iff]
    exact ⟨a, by simp, le_refl _, by exact_mod_cast Nat.le_of_lt (h1.2 a (by simp)).1⟩
  have hb : (b.smin : ℚ) ∈ colSet (b :: t2) := by
    rw [mem_colSet_iff]
    exact ⟨b, by simp, le_refl _, by exact_mod_cast Nat.le_of_lt (h2.2 b (by simp)).1⟩
  have hab : (b.smin : ℚ) ≤ (a.smin : ℚ) := colSet_lb h2 _ (heq ▸ ha)
  have hba : (a.smin : ℚ) ≤ (b.smin : ℚ) := colSet_lb h1 _ (heq.symm ▸ hb)
  exact_mod_cast le_antisymm hba hab

/-- One direction of the head-`smax` equality: with equal solid sets and
equal head `smin`s, the second head's `smax` cannot exceed the first. -/
theorem colSet_head_smax_le {a b : Span} {t1 t2 : List Span}
    (h1 : ColWf (a :: t1)) (h2 : ColWf (b :: t2))
    (heq : colSet (a :: t1) = colSet (b :: t2)) (hmin : a.smin = b.smin) :
    b.smax ≤ a.smax := by
  have hbmem : (b.smax : ℚ) ∈ colSet (a :: t1) := by
    rw [heq, mem_colSet_iff]
    exact ⟨b, by simp, by exact_mod_cast Nat.le_of_lt (h2.2 b (by simp)).1, le_refl _⟩
  obtain ⟨u, hu, hu1, hu2⟩ := mem_colSet_iff.mp hbmem
  rcases List.mem_cons.mp hu with rfl | hu
  · exact_mod_cast hu2
  -- b.smax lies in a later span of the first column; derive a
  -- contradiction from the gap above `a`.
  match t1, hu with
  | c :: r1, hu =>
    have hac : a.smax < c.smin := by
      have := h1.1
      rw [List.chain'_cons] at this
      exact this.1
    have hcu : c.smin ≤ u.smin := by
      exact_mod_cast colWf_head_le (colWf_tail h1) u hu
    set m : ℚ := ((a.smax : ℚ) + (c.smin : ℚ)) / 2 with hm
    have hm1 : (a.smax : ℚ) < m := by
      rw [hm]
      have : (a.smax : ℚ) < (c.smin : ℚ) := by exact_mod_cast hac
      linarith
    have hm2 : m < (c.smin : ℚ) := by
      rw [hm]
      have : (a.smax : ℚ) < (c.smin : ℚ) := by exact_mod_cast hac
      linarith
    have hmb : m ∈ colSet (b :: t2) := by
      rw [mem_colSet_iff]
      refine ⟨b, by simp, ?_, ?_⟩
      · have hba : (b.smin : ℚ) ≤ (a.smax : ℚ) := by
          exact_mod_cast Nat.le_of_lt (hmin ▸ (h1.2 a (by simp)).1)
        linarith
      · have husm : (u.smin : ℚ) ≤ (b.smax : ℚ) := hu1
        have hcuq : (c.smin : ℚ) ≤ (u.smin : ℚ) := by exact_mod_cast hcu
        linarith
    have hma : m ∈ colSet (a :: c :: r1) := heq.symm ▸ hmb
    obtain ⟨v, hv, hv1, hv2⟩ := mem_colSet_iff.mp hma
    rcases List.mem_cons.mp hv with rfl | hv
    · exact absurd hv2 (by push_neg; exact hm1)
    · have hcv : c.smin ≤ v.smin := colWf_head_le (colWf_tail h1) v hv
      have : (c.smin : ℚ) ≤ m := le_trans (by exact_mod_cast hcv) hv1
      exact absurd this (by push_neg; exact hm2)

/-- The tail's solid set is the part of the column's solid set above the
head's `smax`. -/
theorem colSet_tail_inter {a : Span} {t : List Span} (hwf : ColWf (a :: t)) :
    colSet t = colSet (a :: t) ∩ {x : ℚ | (a.smax : ℚ) < x} := by
  ext x
  simp only [Set.mem_inter_iff, Set.mem_setOf_eq, mem_colSet_iff]
  constructor
  · rintro ⟨u, hu, h1, h2⟩
    have hgap : a.smax < u.smin := colWf_cons_forall hwf u hu
    refine ⟨⟨u, by simp [hu], h1, h2⟩, ?_⟩
    calc (a.smax : ℚ) < (u.smin : ℚ) := by exact_mod_cast hgap
      _ ≤ x := h1
  · rintro ⟨⟨u, hu, h1, h2⟩, h3⟩
    rcases List.mem_cons.mp hu with rfl | hu
    · exact absurd h2 (by push_neg; exact h3)
    · exact ⟨u, hu, h1, h2⟩

/-- Two well-formed columns covering the same solid set carry the same
intervals, in the same order. -/
theorem colSet_inj : ∀ l1 l2 : List Span, ColWf l1 → ColWf l2 →
    colSet l1 = colSet l2 → l1.map iv = l2.map iv := by
  intro l1
  induction l1 with
  | nil =>
    intro l2 _ h2 heq
    match l2 with
    | [] => rfl
    | b :: t2 =>
      exfalso
      have hb : (b.smin : ℚ) ∈ colSet (b :: t2) := by
        rw [mem_colSet_iff]
        exact ⟨b, by simp, le_refl _, by exact_mod_cast Nat.le_of_lt (h2.2 b (by simp)).1⟩
      rw [← heq] at hb
      simp [colSet] at hb
  | cons a t1 ih =>
    intro l2 h1 h2 heq
    match l2 with
    | [] =>
      exfalso
      have ha : (a.smin : ℚ) ∈ colSet (a :: t1) := by
        rw [mem_colSet_iff]
        exact ⟨a, by simp, le_refl _, by exact_mod_cast Nat.le_of_lt (h1.2 a (by simp)).1⟩
      rw [heq] at ha
      simp [colSet] at ha
    | b :: t2 =>
      have hmin : a.smin = b.smin := colSet_head_smin_eq h1 h2 heq
      have hmax : a.smax = b.smax :=
        le_antisymm (colSet_head_smax_le h2 h1 heq.symm hmin.symm)
          (colSet_head_smax_le h1 h2 heq hmin)
      have htail : colSet t1 = colSet t2 := by
        rw [colSet_tail_inter h1, colSet_tail_inter h2, heq, hmax]
      have := ih t2 (colWf_tail h1) (colWf_tail h2) htail
      simp only [List.map_cons, this, iv, hmin, hmax]

/-- Folding valid insertions keeps the column well formed. -/
theorem insertFold_wf (fmt : Int) :
    ∀ (l : List (Nat × Nat × Nat)) (col : List Span), ColWf col →
      (∀ t ∈ l, insOk t) →
      ColWf (l.foldl (fun c t => addSpan fmt t.1 t.2.1 t.2.2 c) col) := by
  intro l
  induction l with
  | nil => intro col hcol _; simpa using hcol
  | cons t r ih =>
    intro col hcol hl
    simp only [List.foldl_cons]
    exact ih _ (addSpan_wf fmt t.2.2 hcol (hl t (by simp)).1 (hl t (by simp)).2)
      (fun u hu => hl u (by simp [hu]))

/-- The solid set of a fold of valid insertions. -/
theorem colSet_insertFold (fmt : Int) :
    ∀ (l : List (Nat × Nat × Nat)) (col : List Span), ColWf col →
      (∀ t ∈ l, insOk t) →
      colSet (l.foldl (fun c t => addSpan fmt t.1 t.2.1 t.2.2 c) col) =
        insSet l ∪ colSet col := by
  intro l
  induction l with
  | nil => intro col _ _; simp [insSet]
  | cons t r ih =>
    intro col hcol hl
    simp only [List.foldl_cons, insSet]
    rw [ih _ (addSpan_wf fmt t.2.2 hcol (hl t (by simp)).1 (hl t (by simp)).2)
      (fun u hu => hl u (by simp [hu]))]
    have hins := hl t (by simp)
    have hmn : t.1 % 8192 = t.1 := Nat.mod_eq_of_lt (by rcases hins with ⟨h1, h2⟩; omega)
    have hmx : t.2.1 % 8192 = t.2.1 := Nat.mod_eq_of_lt (by rcases hins with ⟨h1, h2⟩; omega)
    have : colSet (addSpan fmt t.1 t.2.1 t.2.2 col) =
        Set.Icc (t.1 : ℚ) (t.2.1 : ℚ) ∪ colSet col := by
      unfold addSpan
      rw [colSet_addSpanLoop fmt col _ (fun u hu => le_of_lt (hcol.2 u hu).1)
        (by simp [hmn, hmx]; exact le_of_lt hins.1)]
      rw [spanIcc]
      simp [hmn, hmx]
    rw [this, ← Set.union_assoc, Set.union_comm (insSet r), Set.union_assoc]

/-- Permuted insertion lists describe the same solid set. -/
theorem insSet_perm {l1 l2 : List (Nat × Nat × Nat)} (hp : l1.Perm l2) :
    insSet l1 = insSet l2 := by
  induction hp with
  | nil => rfl
  | cons x _ ih => simp only [insSet, ih]
  | swap x y l =>
    simp only [insSet, ← Set.union_assoc, Set.union_comm (Set.Icc (y.1 : ℚ) (y.2.1 : ℚ))]
  | trans _ _ ih1 ih2 => rw [ih1, ih2]

/-- C3, as stated, is false: the final area tags depend on the insertion
order.  With `flagMergeThreshold = 0`, inserting `(0,10,area 7)` then
`(0,20,area 2)` leaves the merged span with area 2, while the reverse
order leaves area 7. -/
theorem claim_C3_counterexample :
    ([((0, 10, 7) : Nat × Nat × Nat), (0, 20, 2)].Perm [(0, 20, 2), (0, 10, 7)]) ∧
    insertAll 0 [(0, 10, 7), (0, 20, 2)] ≠ insertAll 0 [(0, 20, 2), (0, 10, 7)] := by
  decide

/-- C3 (amended): for a fixed `flagMergeThreshold`, inserting a multiset
of valid spans in any order yields the same final chain of intervals
(`smin`/`smax` of every span, in the same order); only the area tags may
depend on the order. -/
theorem claim_C3 (fmt : Int) (l1 l2 : List (Nat × Nat × Nat)) (hp : l1.Perm l2)
    (hok : ∀ t ∈ l1, insOk t) :
    (insertAll fmt l1).map iv = (insertAll fmt l2).map iv := by
  have hok2 : ∀ t ∈ l2, insOk t := fun t ht => hok t (hp.mem_iff.mpr ht)
  have hnil : ColWf ([] : List Span) := ⟨List.chain'_nil, by simp⟩
  have hwf1 : ColWf (insertAll fmt l1) := insertFold_wf fmt l1 [] hnil hok
  have hwf2 : ColWf (insertAll fmt l2) := insertFold_wf fmt l2 [] hnil hok2
  apply colSet_inj _ _ hwf1 hwf2
  rw [insertAll, insertAll, colSet_insertFold fmt l1 [] hnil hok,
    colSet_insertFold fmt l2 [] hnil hok2, insSet_perm hp]

/-- Witness for C3: two concrete permuted insertion sequences. -/
theorem claim_C3_witness :
    ([((0, 10, 7) : Nat × Nat × Nat), (5, 20, 2), (30, 31, 1)].Perm
      [(30, 31, 1), (0, 10, 7), (5, 20, 2)]) ∧
    (∀ t ∈ [((0, 10, 7) : Nat × Nat × Nat), (5, 20, 2), (30, 31, 1)], insOk t) ∧
    (insertAll 3 [(0, 10, 7), (5, 20, 2), (30, 31, 1)]).map iv =
      (insertAll 3 [(30, 31, 1), (0, 10, 7), (5, 20, 2)]).map iv :=
  ⟨by decide, by decide,
    claim_C3 3 [(0, 10, 7), (5, 20, 2), (30, 31, 1)]
      [(30, 31, 1), (0, 10, 7), (5, 20, 2)] (by decide) (by decide)⟩

/-! ### The compact fill (claim C4) -/

/-- C4, as stated, is false: the open-space height is clamped to the
8-bit `h` field.  For the single span `(0, 1)` with no span above, the
code emits `h = 255` while the claim's formula gives
`min(0xFFFF, 0xFFFF) - 1 = 65534`. -/
theorem claim_C4_counterexample :
    compactColumn [⟨0, 1, 63⟩] = [{ y := 1, h := 255, area := 63 }] ∧
    fillPerSpecClaim [⟨0, 1, 63⟩] = [{ y := 1, h := 65534, area := 63 }] ∧
    compactColumn [⟨0, 1, 63⟩] ≠ fillPerSpecClaim [⟨0, 1, 63⟩] := by
  decide

/-- C4 (amended): on a well-formed column, `rcBuildCompactHeightfield`'s
fill emits exactly one compact span per walkable span, in order, with
floor `y = smax`, open-space height
`h = min(min(nextSpan.smin, 0xFFFF) - smax, 255)` (the 8-bit clamp the
claim omitted), and the area tag copied. -/
theorem claim_C4 (col : List Span) (hwf : ColWf col) :
    compactColumn col = fillAmended col := by
  induction col with
  | nil => rfl
  | cons s rest ih =>
    have hok : SpanOk s := hwf.2 s (by simp)
    have htail := ih (colWf_tail hwf)
    unfold compactColumn fillAmended withTops
    rw [List.filterMap_cons]
    by_cases ha : s.area ≠ 0
    · simp only [if_pos ha]
      rw [← fillAmended, ← htail]
      have hy : (rcClampI (s.smax : Int) 0 0xffff).toNat = s.smax := by
        rcases hok with ⟨h1, h2⟩
        simp only [rcClampI]
        split_ifs <;> omega
      congr 1
      match rest, hwf with
      | [], _ =>
        have hh : (rcClampI ((0xffff : Int) - (s.smax : Int)) 0 0xff).toNat
            = min ((min (0xffff : Int) 0xffff) - (s.smax : Int)).toNat 255 := by
          rcases hok with ⟨h1, h2⟩
          simp only [rcClampI]
          split_ifs <;> omega
        simp only [hy, hh]
      | t :: r, hwf =>
        have hgap : s.smax < t.smin := by
          have := hwf.1
          rw [List.chain'_cons] at this
          exact this.1
        have hh : (rcClampI ((t.smin : Int) - (s.smax : Int)) 0 0xff).toNat
            = min ((min ((t.smin : Int)) 0xffff) - (s.smax : Int)).toNat 255 := by
          rcases hok with ⟨h1, h2⟩
          rcases hwf.2 t (by simp) with ⟨h3, h4⟩
          simp only [rcClampI]
          split_ifs <;> omega
        simp only [hy, hh]
    · simp only [if_neg ha]
      rw [← fillAmended, ← htail]

/-- Witness for C4 at a concrete well-formed column. -/
theorem claim_C4_witness :
    ColWf [⟨0, 1, 63⟩, ⟨5, 9, 0⟩, ⟨300, 301, 7⟩] ∧
    compactColumn [⟨0, 1, 63⟩, ⟨5, 9, 0⟩, ⟨300, 301, 7⟩] =
      fillAmended [⟨0, 1, 63⟩, ⟨5, 9, 0⟩, ⟨300, 301, 7⟩] :=
  ⟨⟨by simp [List.chain'_cons], by decide⟩,
    claim_C4 [⟨0, 1, 63⟩, ⟨5, 9, 0⟩, ⟨300, 301, 7⟩]
      ⟨by simp [List.chain'_cons], by decide⟩⟩

/-! ### Compact-heightfield connections (claim C1) -/

/-- A found index is in range. -/
theorem firstSat_some_lt {α : Type} {p : α → Bool} {l : List α} {k : Nat}
    (h : firstSat p l = some k) : k < l.length := by
  induction l generalizing k with
  | nil => simp [firstSat] at h
  | cons a t ih =>
    rw [firstSat] at h
    by_cases hp : p a
    · rw [if_pos hp] at h
      cases h
      simp
    · rw [if_neg hp] at h
      rcases hk : firstSat p t with _ | j <;> rw [hk] at h <;> simp at h
      have := ih hk
      simp
      omega

/-- The found element satisfies the predicate. -/
theorem firstSat_some_sat {α : Type} {p : α → Bool} {l : List α} {k : Nat} (d : α)
    (h : firstSat p l = some k) : p (l.getD k d) = true := by
  induction l generalizing k with
  | nil => simp [firstSat] at h
  | cons a t ih =>
    rw [firstSat] at h
    by_cases hp : p a
    · rw [if_pos hp] at h
      cases h
      simpa using hp
    · rw [if_neg hp] at h
      rcases hk : firstSat p t with _ | j <;> rw [hk] at h <;> simp at h
      rw [← h, List.getD_cons_succ]
      exact ih hk

/-- The first satisfying index is at most any satisfying index. -/
theorem firstSat_le_of_sat {α : Type} {p : α → Bool} {l : List α} {k : Nat} (d : α)
    (hk : k < l.length) (hp : p (l.getD k d) = true) :
    ∃ j, j ≤ k ∧ firstSat p l = some j := by
  induction l generalizing k with
  | nil => simp at hk
  | cons a t ih =>
    by_cases hpa : p a
    · exact ⟨0, Nat.zero_le k, by rw [firstSat, if_pos hpa]⟩
    · match k, hk with
      | 0, _ =>
        rw [List.getD_cons_zero] at hp
        exact absurd hp hpa
      | k + 1, hk =>
        rw [List.getD_cons_succ] at hp
        obtain ⟨j, hj1, hj2⟩ := ih (by simpa using Nat.lt_of_succ_lt_succ hk) hp
        refine ⟨j + 1, by omega, ?_⟩
        rw [firstSat, if_neg hpa, hj2]
        rfl

/-- The clearance-and-climb predicate is symmetric. -/
theorem conn_symm (wh wc : Int) (a b : CSpan) :
    conn wh wc a b = conn wh wc b a := by
  simp [conn, min_comm, max_comm, abs_sub_comm]

/-- `getD` through `map` at an in-range index. -/
theorem getD_map_lt {α β : Type} {f : α → β} {l : List α} {i : Nat} (d1 : α)
    (d2 : β) (h : i < l.length) : (l.map f).getD i d2 = f (l.getD i d1) := by
  rw [List.getD_eq_getElem?_getD, List.getElem?_map, List.getElem?_eq_getElem h]
  rw [List.getD_eq_getElem?_getD, List.getElem?_eq_getElem h]
  rfl

/-- `getD` past the end. -/
theorem getD_ge {α : Type} {l : List α} {i : Nat} (d : α) (h : l.length ≤ i) :
    l.getD i d = d := by
  rw [List.getD_eq_getElem?_getD, List.getElem?_eq_none h]
  rfl

/-- The columns of the built compact heightfield. -/
theorem build_colAt (wh wc : Int) (hf : Hf) {x z : Nat}
    (hx : x < hf.width) (hz : z < hf.height) :
    (rcBuildCompactHeightfield wh wc hf).colAt (x + z * hf.width) =
      ((hf.cols.map compactColumn).getD (x + z * hf.width) []).map
        (linkSpan hf.width hf.height (hf.cols.map compactColumn) wh wc x z) := by
  have hc : x + z * hf.width < hf.width * hf.height := by
    calc x + z * hf.width < hf.width + z * hf.width := by omega
      _ = (z + 1) * hf.width := by ring
      _ ≤ hf.height * hf.width := Nat.mul_le_mul_right _ (by omega)
      _ = hf.width * hf.height := Nat.mul_comm _ _
  have hmod : (x + z * hf.width) % hf.width = x := by
    rw [Nat.add_mul_mod_self_right, Nat.mod_eq_of_lt hx]
  have hdiv : (x + z * hf.width) / hf.width = z := by
    rw [Nat.add_mul_div_right _ _ (by omega : 0 < hf.width), Nat.div_eq_of_lt hx]
    omega
  show ((List.range (hf.width * hf.height)).map _).getD (x + z * hf.width) [] = _
  rw [getD_map_lt 0 _ (by simpa using hc)]
  rw [List.getD_eq_getElem?_getD, List.getElem?_range hc]
  simp only [Option.getD_some, hmod, hdiv]

/-- `rcGetCon` of a freshly linked span is the stored link computation. -/
theorem getCon_linkSpan {w h : Nat} {cols : List (List CSpan)} {wh wc : Int}
    {x z : Nat} {a : CSpan} {d : Nat} (hd : d < 4) :
    getCon (linkSpan w h cols wh wc x z a) d = conOf w h cols wh wc x z a d := by
  interval_cases d <;> rfl

/-- `conn` reads only the open interval, not the stored links. -/
theorem conn_linkSpan {w h : Nat} {cols : List (List CSpan)} {wh2 wc2 : Int}
    {x z : Nat} (wh wc : Int) (a b : CSpan) :
    conn wh wc (linkSpan w h cols wh2 wc2 x z a) b = conn wh wc a b := rfl

/-- `conn` reads only the open interval, right argument. -/
theorem conn_linkSpan_right {w h : Nat} {cols : List (List CSpan)} {wh2 wc2 : Int}
    {x z : Nat} (wh wc : Int) (a b : CSpan) :
    conn wh wc a (linkSpan w h cols wh2 wc2 x z b) = conn wh wc a b := rfl

/-- The default span has no connections. -/
theorem getCon_default (d : Nat) :
    getCon ⟨0, 0, 0, none, none, none, none⟩ d = none := by
  match d with
  | 0 => rfl
  | 1 => rfl
  | 2 => rfl
  | 3 => rfl
  | _ + 4 => rfl

/-- Opposite directions have opposite offsets. -/
theorem dirOff_opp {d : Nat} (hd : d < 4) :
    dirOffX (oppDir d) = -dirOffX d ∧ dirOffZ (oppDir d) = -dirOffZ d := by
  interval_cases d <;> exact ⟨rfl, rfl⟩

/-- C1, as stated, is false: a recorded connection `A→B` need not be
mirrored by `B.con[d^2]` pointing back at `A`.  In `chfStacked`, layer 1
of column `(1,0)` connects west (`d = 0`) to layer 0 of column `(0,0)`,
but that span's east connection (`d^2 = 2`) records layer 0 — the lowest
span of column `(1,0)` satisfying the predicate — not layer 1. -/
theorem claim_C1_counterexample :
    getCon (chfStacked.spanIn 1 0 1) 0 = some 0 ∧
    getCon (chfStacked.spanIn 0 0 0) (oppDir 0) = some 0 ∧
    ¬getCon (chfStacked.spanIn 0 0 0) (oppDir 0) = some 1 := by
  decide

/-- C1 (amended): for every neighbor connection `A→B` recorded by
`rcBuildCompactHeightfield` in `A.con[d]`, the clearance/climb predicate
`min(A.y+A.h, B.y+B.h) - max(A.y, B.y) ≥ walkableHeight` and
`|A.y - B.y| ≤ walkableClimb` holds (in both directions, as it is
symmetric); and `B.con[d^2]` records a connection back into `A`'s column,
namely to the lowest layer `j ≤ layer(A)` there whose span satisfies the
predicate with `B` — which need not be `A` itself — provided `A`'s own
layer index is at most 62. -/
theorem claim_C1 (wh wc : Int) (hf : Hf) (x z d i kB nx nz : Nat)
    (hx : x < hf.width) (hz : z < hf.height) (hd : d < 4)
    (hnx : (nx : Int) = (x : Int) + dirOffX d)
    (hnz : (nz : Int) = (z : Int) + dirOffZ d)
    (hcon : getCon ((rcBuildCompactHeightfield wh wc hf).spanIn x z i) d = some kB) :
    conn wh wc ((rcBuildCompactHeightfield wh wc hf).spanIn x z i)
        ((rcBuildCompactHeightfield wh wc hf).spanIn nx nz kB) = true ∧
    conn wh wc ((rcBuildCompactHeightfield wh wc hf).spanIn nx nz kB)
        ((rcBuildCompactHeightfield wh wc hf).spanIn x z i) = true ∧
    ∃ j, j ≤ i ∧
      conn wh wc ((rcBuildCompactHeightfield wh wc hf).spanIn nx nz kB)
        ((rcBuildCompactHeightfield wh wc hf).spanIn x z j) = true ∧
      (i ≤ 62 →
        getCon ((rcBuildCompactHeightfield wh wc hf).spanIn nx nz kB) (oppDir d)
          = some j) := by
  set w := hf.width with hw
  set ht := hf.height with hht
  set cols0 := hf.cols.map compactColumn with hcols0
  set col0 := cols0.getD (x + z * w) [] with hcol0
  set dflt : CSpan := ⟨0, 0, 0, none, none, none, none⟩ with hdflt
  have hwidth : (rcBuildCompactHeightfield wh wc hf).width = w := rfl
  have hcolA : (rcBuildCompactHeightfield wh wc hf).colAt (x + z * w) =
      col0.map (linkSpan w ht cols0 wh wc x z) := build_colAt wh wc hf hx hz
  by_cases hi : i < col0.length
  · -- the i-th span exists; name its phase-one form
    have hspanA : (rcBuildCompactHeightfield wh wc hf).spanIn x z i =
        linkSpan w ht cols0 wh wc x z (col0.getD i dflt) := by
      rw [Chf.spanIn, hwidth, hcolA, getD_map_lt dflt _ (by simpa using hi)]
    set A0 := col0.getD i dflt with hA0
    rw [hspanA, getCon_linkSpan hd] at hcon
    rw [conOf] at hcon
    by_cases hg : 0 ≤ (x : Int) + dirOffX d ∧ (x : Int) + dirOffX d < (w : Int) ∧
        0 ≤ (z : Int) + dirOffZ d ∧ (z : Int) + dirOffZ d < (ht : Int)
    · rw [if_pos hg] at hcon
      obtain ⟨hg1, hg2, hg3, hg4⟩ := hg
      have hnx2 : ((x : Int) + dirOffX d).toNat = nx := by
        rw [← hnx, Int.toNat_natCast]
      have hnz2 : ((z : Int) + dirOffZ d).toNat = nz := by
        rw [← hnz, Int.toNat_natCast]
      have hnxw : nx < w := by
        have := hg2
        rw [← hnx] at this
        exact_mod_cast this
      have hnzh : nz < ht := by
        have := hg4
        rw [← hnz] at this
        exact_mod_cast this
      rw [hnx2, hnz2] at hcon
      set ncol := cols0.getD (nx + nz * w) [] with hncol
      rcases hfs : firstSat (fun b => conn wh wc A0 b) ncol with _ | k
      · simp only [hfs] at hcon
        cases hcon
      · simp only [hfs] at hcon
        by_cases hk62 : k ≤ 62
        · rw [if_pos hk62] at hcon
          have hkB : kB = k := by cases hcon; rfl
          subst hkB
          have hkBlen : kB < ncol.length := firstSat_some_lt hfs
          set B0 := ncol.getD kB dflt with hB0
          have hsat : conn wh wc A0 B0 = true := firstSat_some_sat dflt hfs
          have hspanB : (rcBuildCompactHeightfield wh wc hf).spanIn nx nz kB =
              linkSpan w ht cols0 wh wc nx nz B0 := by
            rw [Chf.spanIn, hwidth, build_colAt wh wc hf hnxw hnzh,
              getD_map_lt dflt _ hkBlen]
          have hsatBA : conn wh wc B0 A0 = true := by
            rw [conn_symm]; exact hsat
          have hsatA0 : (fun b => conn wh wc B0 b) (col0.getD i dflt) = true := hsatBA
          obtain ⟨j, hj, hfs2⟩ := firstSat_le_of_sat dflt hi hsatA0
          have hjlen : j < col0.length := firstSat_some_lt hfs2
          have hsatBj : conn wh wc B0 (col0.getD j dflt) = true :=
            firstSat_some_sat dflt hfs2
          have hspanJ : (rcBuildCompactHeightfield wh wc hf).spanIn x z j =
              linkSpan w ht cols0 wh wc x z (col0.getD j dflt) := by
            rw [Chf.spanIn, hwidth, hcolA, getD_map_lt dflt _ (by simpa using hjlen)]
          refine ⟨?_, ?_, j, hj, ?_, ?_⟩
          · rw [hspanA, hspanB, conn_linkSpan, conn_linkSpan_right]
            exact hsat
          · rw [hspanA, hspanB, conn_linkSpan, conn_linkSpan_right]
            exact hsatBA
          · rw [hspanB, hspanJ, conn_linkSpan, conn_linkSpan_right]
            exact hsatBj
          · intro hi62
            rw [hspanB, getCon_linkSpan (by
              rw [oppDir]
              interval_cases d <;> decide)]
            rw [conOf]
            obtain ⟨hop1, hop2⟩ := dirOff_opp hd
            have hbx : (nx : Int) + dirOffX (oppDir d) = (x : Int) := by
              rw [hop1, hnx]; ring
            have hbz : (nz : Int) + dirOffZ (oppDir d) = (z : Int) := by
              rw [hop2, hnz]; ring
            rw [if_pos (by
              refine ⟨?_, ?_, ?_, ?_⟩
              · rw [hbx]; exact_mod_cast Int.ofNat_nonneg x
              · rw [hbx]; exact_mod_cast hx
              · rw [hbz]; exact_mod_cast Int.ofNat_nonneg z
              · rw [hbz]; exact_mod_cast hz)]
            rw [hbx, hbz, Int.toNat_natCast, Int.toNat_natCast]
            have hfs2B : firstSat (fun b => conn wh wc B0 b)
                (cols0.getD (x + z * w) []) = some j := by
              rw [← hcol0]; exact hfs2
            simp only [hfs2B]
            rw [if_pos (by omega)]
        · rw [if_neg hk62] at hcon
          simp at hcon
    · rw [if_neg hg] at hcon
      simp at hcon
  · exfalso
    have : (rcBuildCompactHeightfield wh wc hf).spanIn x z i = dflt := by
      rw [Chf.spanIn, hwidth, hcolA, getD_ge _ (by simpa using Nat.le_of_not_lt hi)]
    rw [this, hdflt, getCon_default] at hcon
    cases hcon

/-- Witness for C1 at `hfStacked`: the west connection of layer 1 in
column `(1,0)` satisfies the predicate both ways, and the neighbor's east
connection points at layer 0 of the source column. -/
theorem claim_C1_witness :
    conn 3 4 (chfStacked.spanIn 1 0 1) (chfStacked.spanIn 0 0 0) = true ∧
    conn 3 4 (chfStacked.spanIn 0 0 0) (chfStacked.spanIn 1 0 1) = true ∧
    ∃ j, j ≤ 1 ∧
      conn 3 4 (chfStacked.spanIn 0 0 0) (chfStacked.spanIn 1 0 j) = true ∧
      (1 ≤ 62 → getCon (chfStacked.spanIn 0 0 0) (oppDir 0) = some j) :=
  claim_C1 3 4 hfStacked 1 0 0 1 0 0 0 (by decide) (by decide) (by decide)
    (by decide) (by decide) (by decide)

/-! ### Erosion thresholding (claim C5) -/

/-- `getD` on `List.range`. -/
theorem range_getD (n i d : Nat) (h : i < n) : (List.range n).getD i d = i := by
  rw [List.getD_eq_getElem?_getD, List.getElem?_eq_getElem (by simpa using h)]
  simp

/-- `getD` through `List.enum`. -/
theorem enum_getD {α : Type} (l : List α) (i : Nat) (d : α) (h : i < l.length) :
    l.enum.getD i (0, d) = (i, l.getD i d) := by
  rw [List.getD_eq_getElem?_getD, List.getElem?_eq_getElem (by simpa using h)]
  rw [List.getD_eq_getElem?_getD, List.getElem?_eq_getElem h]
  simp

/-- Reading every index of a list back with `getD` rebuilds the list. -/
theorem map_getD_range {α : Type} (l : List α) (d : α) :
    (List.range l.length).map (fun i => l.getD i d) = l := by
  apply List.ext_getElem
  · simp
  · intro i h1 h2
    simp [List.getD_eq_getElem?_getD, List.getElem?_eq_getElem h2]

/-- C5, as stated, is false: the threshold is the `unsigned char` cast
`(2·erosionRadius) % 256`, not `2·erosionRadius`.  At
`erosionRadius = 128` the cast wraps to `0`, so the distance-`0` span of
`chfSingle` — whose distance is strictly below `2·128 = 256` — keeps its
area `63` instead of being nulled. -/
theorem claim_C5_counterexample :
    (erodeDist chfSingle).getD 0 255 = 0 ∧
    (0 : Nat) < 2 * 128 ∧
    ((rcErodeWalkableArea 128 chfSingle).colAt 0).getD 0 ⟨0, 0, 0, none, none, none, none⟩
      = (chfSingle.colAt 0).getD 0 ⟨0, 0, 0, none, none, none, none⟩ ∧
    chfSingle.areaAt 0 = 63 := by decide

/-- C5 (amended): `rcErodeWalkableArea` nulls exactly the spans whose
two-sweep Chamfer distance is strictly below the `unsigned char` cast
`(2·erosionRadius) % 256`, leaving every other span untouched; with
`erosionRadius = 0` the threshold is `0`, so the call is a no-op. -/
theorem claim_C5 (r : Nat) (chf : Chf) (c l : Nat)
    (hc : c < chf.cols.length) (hl : l < (chf.colAt c).length) :
    (((rcErodeWalkableArea r chf).colAt c).getD l ⟨0, 0, 0, none, none, none, none⟩ =
      if (erodeDist chf).getD (chf.gIdx c l) 255 < (2 * r) % 256
      then { (chf.colAt c).getD l ⟨0, 0, 0, none, none, none, none⟩ with area := 0 }
      else (chf.colAt c).getD l ⟨0, 0, 0, none, none, none, none⟩) ∧
    rcErodeWalkableArea 0 chf = chf := by
  constructor
  · simp only [rcErodeWalkableArea, erodeApply, Chf.colAt]
    rw [getD_map_lt c [] (by simpa using hc)]
    rw [range_getD _ _ _ hc]
    rw [getD_map_lt (0, (⟨0, 0, 0, none, none, none, none⟩ : CSpan)) _
      (by simp only [List.enum_length]; exact hl)]
    rw [enum_getD (chf.cols.getD c []) l ⟨0, 0, 0, none, none, none, none⟩
      (show l < (chf.cols.getD c []).length from hl)]
  · show erodeApply chf (erodeDist chf) 0 = chf
    rw [erodeApply]
    have h1 : ∀ c : Nat, (chf.colAt c).enum.map (fun sl =>
        if (erodeDist chf).getD (chf.gIdx c sl.1) 255 < 0 then { sl.2 with area := 0 }
        else sl.2) = chf.colAt c := by
      intro c
      have h0 : ∀ sl : Nat × CSpan,
          (if (erodeDist chf).getD (chf.gIdx c sl.1) 255 < 0
           then { sl.2 with area := 0 } else sl.2) = sl.2 := by
        intro sl; rw [if_neg (Nat.not_lt_zero _)]
      simp only [h0]
      exact List.enum_map_snd _
    simp only [h1]
    have h2 : (List.range chf.cols.length).map (fun c => chf.colAt c) = chf.cols := by
      show (List.range chf.cols.length).map (fun c => chf.cols.getD c []) = chf.cols
      exact map_getD_range chf.cols []
    rw [h2]

/-- Witness for C5 at `chfSingle`, `erosionRadius = 128`: the span's
distance `0` is not below the wrapped threshold `0`, so its area
survives; and erosion with radius `0` returns the heightfield unchanged. -/
theorem claim_C5_witness :
    0 < chfSingle.cols.length ∧ 0 < (chfSingle.colAt 0).length ∧
    ((((rcErodeWalkableArea 128 chfSingle).colAt 0).getD 0 ⟨0, 0, 0, none, none, none, none⟩ =
      if (erodeDist chfSingle).getD (chfSingle.gIdx 0 0) 255 < (2 * 128) % 256
      then { (chfSingle.colAt 0).getD 0 ⟨0, 0, 0, none, none, none, none⟩ with area := 0 }
      else (chfSingle.colAt 0).getD 0 ⟨0, 0, 0, none, none, none, none⟩) ∧
    rcErodeWalkableArea 0 chfSingle = chfSingle) :=
  ⟨by decide, by decide, claim_C5 128 chfSingle 0 0 (by decide) (by decide)⟩

/-! ### Monotone partitioning (claims C6, C10) -/

/-- C6: the code does not satisfy its own documentation.  On `chfStacked`
(two stacked walkable spans in column `(1,0)`, both connecting west to
the single span of `(0,0)`), `rcBuildRegionsMonotone` hands both layers
of column `(1,0)` — flat spans `1` and `2` — the same non-border region
label `1`, and still reports success: partitioning a row monotonically in
`x` ignores the vertical layering, so two spans of one column can inherit
one sweep id through a shared neighbor.  The comment above
`rcBuildRegionsMonotone` promises non-overlapping regions
(`RecastRegion.cpp:1657-1671`, `Recast.h`), and `mergeAndFilterRegions`
flags the produced region as overlapping without un-merging it. -/
theorem claim_C6 :
    (rcBuildRegionsMonotone chfStacked 0 0 0).ok = true ∧
    chfStacked.cellIndex 1 = 1 ∧
    (chfStacked.colAt 1).length = 2 ∧
    (rcBuildRegionsMonotone chfStacked 0 0 0).reg.getD 1 0 = 1 ∧
    (rcBuildRegionsMonotone chfStacked 0 0 0).reg.getD 2 0 = 1 ∧
    1 &&& RC_BORDER_REG = 0 := by decide

/-- C10: the row-local counter `rid` is not bounded by
`max(width, height)`.  On `chfIsolated4` — one row of four mutually
unreachable walkable spans — the sweep of the single row ends with
`rid = 5`, having allocated sweep ids `1..4`; the C++ then reads and
writes `sweeps[previd]` for `previd` up to `4`, one past the
`nsweeps = max(4, 1) = 4` entries allocated at `RecastRegion.cpp:1692`.
A row can hold up to `width·MAX_LAYERS` spans, each able to start a new
row-local id, so `nsweeps = max(width, height)` is not a bound. -/
theorem claim_C10 :
    (rcBuildRegionsMonotone chfIsolated4 0 0 0).ridPerRow = [5] ∧
    max chfIsolated4.width chfIsolated4.height = 4 := by decide

/-! ### Degraded-but-successful stages (claim C8) -/

/-- C8: `rcBuildCompactHeightfield` reaches `return true` on every input
of the embedding (allocation failures aside) — on `hfTower` the
too-many-layers condition actually fires, the affected direction is left
unconnected (`con = none` instead of layer `63`), and the call still
succeeds; and the result of `rcBuildRegions` is `true` exactly when the
region-id overflow did not occur, so the value of `ok` never depends on
the detected overlap list, which is only logged. -/
theorem claim_C8 (wh wc : Int) (hf : Hf) (chf : Chf) (dist : List Nat)
    (maxDist borderSize minRegionArea mergeRegionArea : Nat) :
    (rcBuildCompactHeightfieldR wh wc hf).ok = true ∧
    (tooManyLayers 3 1 hfTower = true ∧
      (rcBuildCompactHeightfieldR 3 1 hfTower).ok = true ∧
      getCon ((rcBuildCompactHeightfield 3 1 hfTower).spanIn 1 0 0) 0 = none) ∧
    (rcBuildRegions chf dist maxDist borderSize minRegionArea mergeRegionArea).ok
      = !(rcBuildRegions chf dist maxDist borderSize minRegionArea
          mergeRegionArea).overflowed := by
  refine ⟨rfl, by decide, ?_⟩
  simp only [rcBuildRegions]
  split <;> rfl

/-! ### Ledge filter on grid edges (claim C9) -/

/-- If any direction in the remaining list leaves the grid, the
direction loop of `rcFilterLedgeSpans` ends with the
`-walkableClimb - 1` sentinel as its lowest neighbor floor difference:
the out-of-bounds break writes it directly, the tall-gap break writes
the same sentinel, and the neighbor-column walk never raises the
running minimum. -/
theorem ledgeDirs_oob (hf : Hf) (wh wc floor ceiling : Int) (x z : Nat) :
    ∀ (dirs : List Nat) (st : Int × Int × Int),
      (∃ d ∈ dirs, (x : Int) + dirOffX d < 0 ∨ (z : Int) + dirOffZ d < 0 ∨
        (x : Int) + dirOffX d ≥ (hf.width : Int) ∨
        (z : Int) + dirOffZ d ≥ (hf.height : Int)) →
      (ledgeDirs hf wh wc floor ceiling x z dirs st).1 = -wc - 1 := by
  intro dirs
  induction dirs with
  | nil =>
    intro st h
    obtain ⟨d, hd, _⟩ := h
    cases hd
  | cons d rest ih =>
    intro st h
    obtain ⟨lowest, lo, hi⟩ := st
    simp only [ledgeDirs]
    split
    · rfl
    · rename_i hg
      split
      · rfl
      · apply ih
        obtain ⟨d', hd', hoob⟩ := h
        rcases List.mem_cons.mp hd' with heq | hd'
        · subst heq
          exact absurd hoob hg
        · exact ⟨d', hd', hoob⟩

/-- C9: after `rcFilterLedgeSpans`, no walkable span survives in a
column on the grid edge (`x = 0`, `x = width-1`, `z = 0`, or
`z = height-1`): one of the four directions is out of bounds, so the
direction loop always ends carrying the `-walkableClimb - 1` sentinel,
which satisfies the `< -walkableClimb` ledge rejection. -/
theorem claim_C9 (wh wc : Int) (hf : Hf) (x z : Nat)
    (hx : x < hf.width) (hz : z < hf.height)
    (hedge : x = 0 ∨ x + 1 = hf.width ∨ z = 0 ∨ z + 1 = hf.height) :
    ∀ t ∈ (rcFilterLedgeSpans wh wc hf).cols.getD (x + z * hf.width) [],
      t.area = 0 := by
  intro t ht
  have hc : x + z * hf.width < hf.width * hf.height := by
    calc x + z * hf.width < hf.width + z * hf.width := by omega
    _ = (z + 1) * hf.width := by ring
    _ ≤ hf.height * hf.width := Nat.mul_le_mul_right _ (by omega)
    _ = hf.width * hf.height := Nat.mul_comm _ _
  have hmod : (x + z * hf.width) % hf.width = x := by
    rw [Nat.add_mul_mod_self_right, Nat.mod_eq_of_lt hx]
  have hdiv : (x + z * hf.width) / hf.width = z := by
    rw [Nat.add_mul_div_right _ _ (by omega : 0 < hf.width), Nat.div_eq_of_lt hx]
    omega
  simp only [rcFilterLedgeSpans] at ht
  rw [getD_map_lt 0 [] (by simpa using hc)] at ht
  rw [range_getD _ _ _ hc, hmod, hdiv] at ht
  obtain ⟨st, hst, rfl⟩ := List.mem_map.mp ht
  simp only [ledgeSpan]
  by_cases ha : st.1.area = 0
  · rw [if_pos ha]
    exact ha
  · rw [if_neg ha]
    have e0 : dirOffX 0 = -1 := rfl
    have e1 : dirOffZ 1 = 1 := rfl
    have e2 : dirOffX 2 = 1 := rfl
    have e3 : dirOffZ 3 = -1 := rfl
    have hl := ledgeDirs_oob hf wh wc ((st.1.smax : Nat) : Int) st.2 x z [0, 1, 2, 3]
      (0xffff, ((st.1.smax : Nat) : Int), ((st.1.smax : Nat) : Int)) ?_
    · rw [hl, if_pos (by omega : (-wc - 1 : Int) < -wc)]
    · rcases hedge with h | h | h | h
      · exact ⟨0, by decide, Or.inl (by rw [e0]; omega)⟩
      · exact ⟨2, by decide, Or.inr (Or.inr (Or.inl (by rw [e2]; omega)))⟩
      · exact ⟨3, by decide, Or.inr (Or.inl (by rw [e3]; omega))⟩
      · exact ⟨1, by decide, Or.inr (Or.inr (Or.inr (by rw [e1]; omega)))⟩

/-- Witness for C9: the single walkable span of the 1×1 heightfield
`hfSingle` sits in an edge column and is nulled by the ledge filter
(`walkableHeight = 1`, `walkableClimb = 0`). -/
theorem claim_C9_witness :
    (((rcFilterLedgeSpans 1 0 hfSingle).cols.getD (0 + 0 * hfSingle.width) []).getD 0
      ⟨0, 1, 63⟩).area = 0 :=
  claim_C9 1 0 hfSingle 0 0 (by decide) (by decide) (Or.inl rfl)
    (((rcFilterLedgeSpans 1 0 hfSingle).cols.getD (0 + 0 * hfSingle.width) []).getD 0
      ⟨0, 1, 63⟩) (by decide)


/-! ### On-boundary triangles rasterize to one side (claim C7) -/

/-- C truncation of an integer-valued rational is that integer. -/
theorem cTrunc_intCast (k : Int) : cTrunc ((k : ℚ)) = k := by
  rw [cTrunc]
  split
  · rw [show -((k : ℚ)) = ((-k : Int) : ℚ) by push_cast; ring, Int.floor_intCast]
    ring
  · rw [Int.floor_intCast]

/-- Folding `min` of a constant coordinate stays at the constant. -/
theorem foldl_min_x (c : ℚ) : ∀ (vs : List V3), (∀ v ∈ vs, v.x = c) →
    vs.foldl (fun a u => min a u.x) c = c := by
  intro vs
  induction vs with
  | nil => intro _; rfl
  | cons u us ih =>
    intro h
    simp only [List.foldl_cons]
    rw [h u (by simp), min_self]
    exact ih (fun v hv => h v (by simp [hv]))

/-- Folding `max` of a constant coordinate stays at the constant. -/
theorem foldl_max_x (c : ℚ) : ∀ (vs : List V3), (∀ v ∈ vs, v.x = c) →
    vs.foldl (fun a u => max a u.x) c = c := by
  intro vs
  induction vs with
  | nil => intro _; rfl
  | cons u us ih =>
    intro h
    simp only [List.foldl_cons]
    rw [h u (by simp), max_self]
    exact ih (fun v hv => h v (by simp [hv]))

/-- Clip intersection points interpolate every coordinate. -/
theorem axisVal_interp (ax : Nat) (A B : V3) (s : ℚ) :
    axisVal ax ⟨B.x + (A.x - B.x) * s, B.y + (A.y - B.y) * s, B.z + (A.z - B.z) * s⟩
      = axisVal ax B + (axisVal ax A - axisVal ax B) * s := by
  rcases ax with _ | _ | ax <;> rfl

/-- Appending one conforming vertex preserves a per-vertex bound. -/
theorem appendc {ax0 : Nat} {c : ℚ} {l : List V3} {a : V3}
    (hl : ∀ u ∈ l, axisVal ax0 u = c) (ha : axisVal ax0 a = c) :
    ∀ u ∈ l ++ [a], axisVal ax0 u = c := by
  intro u hu
  rcases List.mem_append.mp hu with hu | hu
  · exact hl u hu
  · rw [List.mem_singleton.mp hu]
    exact ha

/-- One edge step of `dividePoly` only emits input vertices and points
interpolated between them, so a coordinate shared by the whole input is
shared by both outputs. -/
theorem divideStep_const (ax0 axis : Nat) (c off : ℚ) (out : List V3 × List V3)
    (ab : V3 × V3) (hA : axisVal ax0 ab.1 = c) (hB : axisVal ax0 ab.2 = c)
    (h1 : ∀ v ∈ out.1, axisVal ax0 v = c) (h2 : ∀ v ∈ out.2, axisVal ax0 v = c) :
    (∀ v ∈ (divideStep off axis out ab).1, axisVal ax0 v = c) ∧
    (∀ v ∈ (divideStep off axis out ab).2, axisVal ax0 v = c) := by
  obtain ⟨A, B⟩ := ab
  simp only [divideStep]
  have hm : axisVal ax0
      ⟨B.x + (A.x - B.x) * ((off - axisVal axis B) / ((off - axisVal axis B) - (off - axisVal axis A))),
       B.y + (A.y - B.y) * ((off - axisVal axis B) / ((off - axisVal axis B) - (off - axisVal axis A))),
       B.z + (A.z - B.z) * ((off - axisVal axis B) / ((off - axisVal axis B) - (off - axisVal axis A)))⟩ = c := by
    rw [axisVal_interp, hA, hB]
    ring
  split
  · split
    · split
      · exact ⟨appendc h1 hA, h2⟩
      · exact ⟨appendc h1 hA, appendc h2 hA⟩
    · exact ⟨h1, appendc h2 hA⟩
  · split
    · exact ⟨appendc (appendc h1 hm) hA, appendc h2 hm⟩
    · split
      · exact ⟨appendc h1 hm, appendc (appendc h2 hm) hA⟩
      · exact ⟨appendc h1 hm, appendc h2 hm⟩

/-- The edge fold of `dividePoly` preserves a shared coordinate. -/
theorem divideFold_const (ax0 axis : Nat) (c off : ℚ) :
    ∀ (ps : List (V3 × V3)) (acc : List V3 × List V3),
      (∀ ab ∈ ps, axisVal ax0 ab.1 = c ∧ axisVal ax0 ab.2 = c) →
      (∀ v ∈ acc.1, axisVal ax0 v = c) → (∀ v ∈ acc.2, axisVal ax0 v = c) →
      (∀ v ∈ (ps.foldl (divideStep off axis) acc).1, axisVal ax0 v = c) ∧
      (∀ v ∈ (ps.foldl (divideStep off axis) acc).2, axisVal ax0 v = c) := by
  intro ps
  induction ps with
  | nil => intro acc _ h1 h2; exact ⟨h1, h2⟩
  | cons ab ps ih =>
    intro acc hps h1 h2
    simp only [List.foldl_cons]
    obtain ⟨hA, hB⟩ := hps ab (by simp)
    obtain ⟨g1, g2⟩ := divideStep_const ax0 axis c off acc ab hA hB h1 h2
    exact ih _ (fun p hp => hps p (by simp [hp])) g1 g2

/-- A coordinate shared by every input vertex of `dividePoly` is shared
by every vertex of both outputs. -/
theorem dividePoly_const (ax0 axis : Nat) (c off : ℚ) (inP : List V3)
    (h : ∀ v ∈ inP, axisVal ax0 v = c) :
    (∀ v ∈ (dividePoly inP off axis).1, axisVal ax0 v = c) ∧
    (∀ v ∈ (dividePoly inP off axis).2, axisVal ax0 v = c) := by
  rw [dividePoly]
  apply divideFold_const
  · intro ab hab
    obtain ⟨a, b⟩ := ab
    obtain ⟨ha, hb⟩ := List.of_mem_zip hab
    constructor
    · exact h a ha
    · have hne : inP ≠ [] := by
        rintro rfl
        cases ha
      rcases List.mem_cons.mp hb with heq | hb
      · rw [heq, List.getLast?_eq_getLast inP hne, Option.getD_some]
        exact h _ (List.getLast_mem hne)
      · exact h b ((List.dropLast_sublist inP).subset hb)
  · intro v hv
    cases hv
  · intro v hv
    cases hv

/-- Every span emitted by the inner loop carries the row it was called
with. -/
theorem xLoop_ez (bminX bminY cs ich bY : ℚ) (z : Int) :
    ∀ (fuel : Nat) (x : Int) (inP : List V3) (e : Emit),
      e ∈ xLoop bminX bminY cs ich bY z fuel x inP → e.ez = z := by
  intro fuel
  induction fuel with
  | zero =>
    intro x inP e he
    simp only [xLoop] at he
    cases he
  | succ n ih =>
    intro x inP e he
    simp only [xLoop] at he
    split at he
    · exact ih _ _ e he
    · split at he
      · exact ih _ _ e he
      · split at he
        · exact ih _ _ e he
        · split at he
          · exact ih _ _ e he
          · split at he
            · exact ih _ _ e he
            · rcases List.mem_cons.mp he with rfl | he
              · rfl
              · exact ih _ _ e he

/-- A single inner-loop iteration can only emit into its own cell. -/
theorem xLoop_one (bminX bminY cs ich bY : ℚ) (z : Int) (x : Int) (inP : List V3)
    (e : Emit) (he : e ∈ xLoop bminX bminY cs ich bY z 1 x inP) :
    e.ex = x ∧ e.ez = z := by
  simp only [xLoop] at he
  split at he
  · cases he
  · split at he
    · cases he
    · split at he
      · cases he
      · split at he
        · cases he
        · split at he
          · cases he
          · rcases List.mem_cons.mp he with rfl | he
            · exact ⟨rfl, rfl⟩
            · cases he

/-- A single outer-loop iteration only emits into its own row. -/
theorem zLoop_ez_one (bminX bminY bminZ cs ics ich bY : ℚ) (w : Nat) (z : Int)
    (inP : List V3) (e : Emit)
    (he : e ∈ zLoop bminX bminY bminZ cs ics ich bY w 1 z inP) : e.ez = z := by
  simp only [zLoop] at he
  split at he
  · cases he
  · split at he
    · cases he
    · split at he
      · cases he
      · split at he
        · cases he
        · rw [List.append_nil] at he
          exact xLoop_ez bminX bminY cs ich bY z _ _ _ e he

/-- If every vertex lies on the column plane `x = bminX + k·cs`, every
span the outer loop emits (over any number of rows) lands in column `k`:
each row fragment inherits the constant `x`, its truncated range is the
single column `k`, and the inner loop then runs exactly once. -/
theorem zLoop_ex_const (bminX bminY bminZ cs ich bY : ℚ) (w : Nat) (k : Int)
    (hcs : cs ≠ 0) :
    ∀ (fuel : Nat) (z : Int) (inP : List V3),
      (∀ v ∈ inP, v.x = bminX + (k : ℚ) * cs) →
      ∀ e ∈ zLoop bminX bminY bminZ cs (1 / cs) ich bY w fuel z inP, e.ex = k := by
  intro fuel
  induction fuel with
  | zero =>
    intro z inP hinv e he
    simp only [zLoop] at he
    cases he
  | succ n ih =>
    intro z inP hinv e he
    have hdiv := dividePoly_const 0 2 (bminX + (k : ℚ) * cs)
      (bminZ + (z : ℚ) * cs + cs) inP (fun v hv => hinv v hv)
    have htl : ∀ v ∈ (dividePoly inP (bminZ + (z : ℚ) * cs + cs) 2).2,
        v.x = bminX + (k : ℚ) * cs := fun v hv => hdiv.2 v hv
    simp only [zLoop] at he
    split at he
    · exact ih _ _ htl e he
    · split at he
      · exact ih _ _ htl e he
      · split at he
        · exact ih _ _ htl e he
        · rename_i v vs heq
          have hfrag : ∀ u ∈ v :: vs, u.x = bminX + (k : ℚ) * cs := by
            rw [← heq]
            exact fun u hu => hdiv.1 u hu
          have hminX : vs.foldl (fun a u => min a u.x) v.x = bminX + (k : ℚ) * cs := by
            rw [hfrag v (by simp)]
            exact foldl_min_x _ vs (fun u hu => hfrag u (by simp [hu]))
          have hmaxX : vs.foldl (fun a u => max a u.x) v.x = bminX + (k : ℚ) * cs := by
            rw [hfrag v (by simp)]
            exact foldl_max_x _ vs (fun u hu => hfrag u (by simp [hu]))
          have hq : (bminX + (k : ℚ) * cs - bminX) * (1 / cs) = (k : ℚ) := by
            field_simp
          have hx0r : cTrunc ((vs.foldl (fun a u => min a u.x) v.x - bminX) * (1 / cs)) = k := by
            rw [hminX, hq, cTrunc_intCast]
          have hx1r : cTrunc ((vs.foldl (fun a u => max a u.x) v.x - bminX) * (1 / cs)) = k := by
            rw [hmaxX, hq, cTrunc_intCast]
          split at he
          · exact ih _ _ htl e he
          · rename_i hrej
            rw [hx0r, hx1r] at hrej
            have hk0 : 0 ≤ k := by omega
            have hkw : k < (w : Int) := by omega
            rcases List.mem_append.mp he with he | he
            · rw [hx0r, hx1r] at he
              have hc0 : rcClampI k (-1) ((w : Int) - 1) = k := by
                unfold rcClampI
                split_ifs <;> omega
              have hc1 : rcClampI k 0 ((w : Int) - 1) = k := by
                unfold rcClampI
                split_ifs <;> omega
              rw [hc0, hc1, show (k + 1 - k : Int).toNat = 1 from by omega] at he
              exact (xLoop_one bminX bminY cs ich bY z k _ e he).1
            · exact ih _ _ htl e he

/-- C7: a triangle lying exactly on a cell-boundary plane of the grid
rasterizes into exactly one side of that plane.  If every vertex has
`z = bmin.z + k·cs`, every emitted span lands in the single row
`clamp(k, 0, h-1)` — for an interior boundary that is row `k`, the
positive side chosen by `dividePoly`'s tie-break, which keeps on-plane
vertices with the `≥ axisOffset` output.  If every vertex has
`x = bmin.x + k·cs`, every emitted span lands in column `k` (for `k`
outside `[0, w-1]` the row rejection emits nothing at all). -/
theorem claim_C7 (v0 v1 v2 : V3) (bmin bmax : V3) (w h : Nat) (cs ch : ℚ)
    (k : Int) (hcs : 0 < cs) :
    ((v0.z = bmin.z + (k : ℚ) * cs ∧ v1.z = bmin.z + (k : ℚ) * cs ∧
        v2.z = bmin.z + (k : ℚ) * cs) →
      ∀ e ∈ rasterizeTri v0 v1 v2 bmin bmax w h cs ch,
        e.ez = rcClampI k 0 ((h : Int) - 1)) ∧
    ((v0.x = bmin.x + (k : ℚ) * cs ∧ v1.x = bmin.x + (k : ℚ) * cs ∧
        v2.x = bmin.x + (k : ℚ) * cs) →
      ∀ e ∈ rasterizeTri v0 v1 v2 bmin bmax w h cs ch, e.ex = k) := by
  constructor
  · rintro ⟨h0, h1, h2⟩ e he
    simp only [rasterizeTri] at he
    split at he
    · cases he
    · rename_i hov
      rw [not_not] at hov
      simp only [overlapBounds, Bool.and_eq_true, decide_eq_true_eq] at hov
      obtain ⟨⟨⟨⟨⟨hb1, hb2⟩, hb3⟩, hb4⟩, hb5⟩, hb6⟩ := hov
      rw [h0, h1, h2, max_self, max_self] at hb6
      have hk0 : (0 : Int) ≤ k := by
        have hq0 : (0 : ℚ) ≤ (k : ℚ) := by
          have := le_of_mul_le_mul_right (by linarith : (0 : ℚ) * cs ≤ (k : ℚ) * cs) hcs
          linarith
        exact_mod_cast hq0
      simp only [h0, h1, h2, min_self, max_self] at he
      have hq : (bmin.z + (k : ℚ) * cs - bmin.z) * (1 / cs) = (k : ℚ) := by
        field_simp
      rw [hq, cTrunc_intCast] at he
      have hcl : rcClampI k (-1) ((h : Int) - 1) = rcClampI k 0 ((h : Int) - 1) := by
        unfold rcClampI
        split_ifs <;> omega
      rw [hcl] at he
      rw [show (rcClampI k 0 ((h : Int) - 1) + 1 - rcClampI k 0 ((h : Int) - 1)).toNat = 1
        from by omega] at he
      exact zLoop_ez_one bmin.x bmin.y bmin.z cs (1 / cs) (1 / ch) (bmax.y - bmin.y)
        w _ [v0, v1, v2] e he
  · rintro ⟨h0, h1, h2⟩ e he
    simp only [rasterizeTri] at he
    split at he
    · cases he
    · refine zLoop_ex_const bmin.x bmin.y bmin.z cs (1 / ch) (bmax.y - bmin.y) w k
        (ne_of_gt hcs) _ _ [v0, v1, v2] ?_ e he
      intro v hv
      simp only [List.mem_cons, List.not_mem_nil, or_false] at hv
      rcases hv with rfl | rfl | rfl
      · exact h0
      · exact h1
      · exact h2

/-- Witness for C7 on a unit grid: a triangle on the plane `z = bmin.z`
emits exactly one span, in row `clamp(0, 0, h-1) = 0`; a triangle on the
plane `x = bmin.x` emits exactly one span, in column `0`. -/
theorem claim_C7_witness :
    rasterizeTri ⟨0, 0, 0⟩ ⟨1/2, 1, 0⟩ ⟨1/4, 1/2, 0⟩ ⟨0, 0, 0⟩ ⟨1, 1, 1⟩ 1 1 1 1
      = [⟨0, 0, 0, 1⟩] ∧
    (⟨0, 0, 0, 1⟩ : Emit).ez = rcClampI 0 0 ((1 : Int) - 1) ∧
    rasterizeTri ⟨0, 0, 0⟩ ⟨0, 1, 1/2⟩ ⟨0, 1/2, 1/4⟩ ⟨0, 0, 0⟩ ⟨1, 1, 1⟩ 1 1 1 1
      = [⟨0, 0, 0, 1⟩] ∧
    (⟨0, 0, 0, 1⟩ : Emit).ex = 0 := by
  have hev1 : rasterizeTri ⟨0, 0, 0⟩ ⟨1/2, 1, 0⟩ ⟨1/4, 1/2, 0⟩ ⟨0, 0, 0⟩ ⟨1, 1, 1⟩ 1 1 1 1
      = [⟨0, 0, 0, 1⟩] := by
    norm_num [rasterizeTri, overlapBounds, zLoop, xLoop, dividePoly, divideStep,
      axisVal, cTrunc, rcClampI]
  have hev2 : rasterizeTri ⟨0, 0, 0⟩ ⟨0, 1, 1/2⟩ ⟨0, 1/2, 1/4⟩ ⟨0, 0, 0⟩ ⟨1, 1, 1⟩ 1 1 1 1
      = [⟨0, 0, 0, 1⟩] := by
    norm_num [rasterizeTri, overlapBounds, zLoop, xLoop, dividePoly, divideStep,
      axisVal, cTrunc, rcClampI]
  refine ⟨hev1, ?_, hev2, ?_⟩
  · exact (claim_C7 ⟨0, 0, 0⟩ ⟨1/2, 1, 0⟩ ⟨1/4, 1/2, 0⟩ ⟨0, 0, 0⟩ ⟨1, 1, 1⟩ 1 1 1 1 0
      (by norm_num)).1 (by norm_num) ⟨0, 0, 0, 1⟩ (by rw [hev1]; simp)
  · exact (claim_C7 ⟨0, 0, 0⟩ ⟨0, 1, 1/2⟩ ⟨0, 1/2, 1/4⟩ ⟨0, 0, 0⟩ ⟨1, 1, 1⟩ 1 1 1 1 0
      (by norm_num)).2 (by norm_num) ⟨0, 0, 0, 1⟩ (by rw [hev2]; simp)


end Recast
